import Mathlib

/-!
Verification of the generation/QC orchestration core of the auto-blog
pipeline: markdown assembly and length extraction, the quality-control
rule set, revise-request construction, the soft-revision loop, the batch
job runner and the retrying WordPress publisher.

Python strings are modelled as lists of unicode scalar values
(`List Char`), so `len` is list length (code points).  External
collaborators (LLM port, site adapter, prompt renderer, HTTP transport,
JSON decoding) are modelled as oracle environments; code of the
repository itself is translated directly.
-/

namespace AutoBlog

/-- Python `str` modelled as a list of code points. -/
abbrev Str := List Char

/-- Coerce a Lean string literal to the model type. -/
def str (x : String) : Str := x.data

/-- The character set accepted by Python `str.isspace` (and `\s` in `re`
with a `str` pattern), which is what `str.strip()` removes. -/
def pyIsSpace (c : Char) : Bool :=
  c = ' ' || (9 ≤ c.toNat && c.toNat ≤ 13) || (28 ≤ c.toNat && c.toNat ≤ 31) ||
  c.toNat = 0x85 || c.toNat = 0xa0 || c.toNat = 0x1680 ||
  (0x2000 ≤ c.toNat && c.toNat ≤ 0x200a) || c.toNat = 0x2028 || c.toNat = 0x2029 ||
  c.toNat = 0x202f || c.toNat = 0x205f || c.toNat = 0x3000

/-- Python `str.strip()`: drop leading and trailing whitespace. -/
def pyStrip (cs : Str) : Str :=
  ((cs.dropWhile pyIsSpace).reverse.dropWhile pyIsSpace).reverse

/-- The line-break set of Python `str.splitlines`. -/
def pyIsLineBreak (c : Char) : Bool :=
  (10 ≤ c.toNat && c.toNat ≤ 13) || (28 ≤ c.toNat && c.toNat ≤ 30) ||
  c.toNat = 0x85 || c.toNat = 0x2028 || c.toNat = 0x2029

/-- Worker for `pySplitlines`; the accumulator holds the current line
reversed.  `\r\n` counts as a single break. -/
def splitlinesAux : Str → Str → List Str
  | accRev, [] => if accRev.isEmpty then [] else [accRev.reverse]
  | accRev, [c] =>
      if pyIsLineBreak c then accRev.reverse :: splitlinesAux [] []
      else splitlinesAux (c :: accRev) []
  | accRev, c :: d :: t =>
      if c = '\r' ∧ d = '\n' then accRev.reverse :: splitlinesAux [] t
      else if pyIsLineBreak c then accRev.reverse :: splitlinesAux [] (d :: t)
      else splitlinesAux (c :: accRev) (d :: t)

/-- Python `str.splitlines()`: every break character terminates a line;
a trailing segment is emitted only when nonempty. -/
def pySplitlines (cs : Str) : List Str := splitlinesAux [] cs

/-- Python `sep.join(parts)` for `sep = "\n"`. -/
def joinNL : List Str → Str
  | [] => []
  | x :: xs =>
    match xs with
    | [] => x
    | _ :: _ => x ++ '\n' :: joinNL xs

/-- Python `"".join(parts)`. -/
def joinEmpty (parts : List Str) : Str := parts.flatten

/-- Python `"; ".join(parts)`. -/
def joinSemi (parts : List Str) : Str := List.intercalate (str "; ") parts

/-- `dropPre p cs = some rest` iff `cs = p ++ rest`. -/
def dropPre : Str → Str → Option Str
  | [], cs => some cs
  | _, [] => none
  | p :: ps, c :: cs => if p = c then dropPre ps cs else none

/-- Python `needle in hay` (substring containment). -/
def containsSub (hay needle : Str) : Bool :=
  if needle.isPrefixOf hay then true
  else match hay with
    | [] => false
    | _ :: t => containsSub t needle

/-- Worker for `splitOnChar`. -/
def splitOnCharAux (sep : Char) : Str → Str → List Str
  | accRev, [] => [accRev.reverse]
  | accRev, c :: t =>
      if c = sep then accRev.reverse :: splitOnCharAux sep [] t
      else splitOnCharAux sep (c :: accRev) t

/-- Python `s.split(sep)` for a one-character separator: always emits the
final (possibly empty) segment. -/
def splitOnChar (sep : Char) : Str → List Str := splitOnCharAux sep []

/-- Decimal rendering of a natural number, as used by Python f-strings. -/
def natStr (n : Nat) : Str := Nat.toDigits 10 n

/-! ## Data model (`domain/models/llm_generation.py`) -/

structure OutlineH3 where
  id : Str
  h3 : Str
  must_include : List Str := []
  deriving DecidableEq, Repr

structure OutlineItem where
  id : Str
  h2 : Str
  intent : Str := []
  focus_keywords : List Str := []
  must_include : List Str := []
  must_avoid : List Str := []
  h3 : List OutlineH3 := []
  deriving DecidableEq, Repr

structure ArticlePlan where
  title : Str
  slug : Str
  meta_description : Str
  outline : List OutlineItem
  tags_suggestions : List Str := []
  volatile_topics : List Str := []
  safe_assertions : List Str := []
  notes : Option Str := none
  deriving DecidableEq, Repr

structure SectionH3Draft where
  id : Str
  h3 : Str
  body : Str
  deriving DecidableEq, Repr

structure SectionDraft where
  h2_id : Str
  h2 : Str
  body : Str
  h3_blocks : List SectionH3Draft := []
  deriving DecidableEq, Repr

structure QualitySelfCheck where
  meta_description_length : Nat
  markdown_length : Nat
  h2_count : Nat
  h3_count : Nat
  min_h2_length : Nat
  min_h3_length : Nat
  faq_count : Nat
  assertive_language_found : Bool
  regenerate_required : Bool
  deriving DecidableEq, Repr

/-- FAQ entries are opaque question/answer records; only their count is
observed by QC. -/
structure FaqItem where
  question : Str := []
  answer : Str := []
  deriving DecidableEq, Repr

structure ArticleDraft where
  title : Str
  slug : Str
  meta_description : Str
  outline : List OutlineItem
  markdown : Str
  sections : List SectionDraft := []
  faq : List FaqItem := []
  tags_suggestions : List Str := []
  volatile_topics : List Str := []
  safe_assertions : List Str := []
  notes : Option Str := none
  quality_self_check : Option QualitySelfCheck := none
  deriving DecidableEq, Repr

inductive QcSeverity where
  | hard
  | soft
  deriving DecidableEq, Repr

structure QcIssue where
  message : Str
  severity : QcSeverity
  target_id : Option Str := none
  metric : Option Str := none
  deriving DecidableEq, Repr

structure QcReport where
  hard_failed : Bool
  soft_failed : Bool
  issues : List QcIssue := []
  measurements : QualitySelfCheck
  deriving DecidableEq, Repr

structure ReviseRequest where
  sections_to_regenerate : List Str := []
  reasons : List Str := []
  hard_fail : Bool := false
  deriving DecidableEq, Repr

/-! ## Markdown assembly (`usecases/create_drafts.py`) -/

def embedH2WithId (title h2_id : Str) : Str :=
  str "## " ++ title ++ str " <!-- id:" ++ h2_id ++ str " -->"

def embedH3WithId (title h3_id : Str) : Str :=
  str "### " ++ title ++ str " <!-- id:" ++ h3_id ++ str " -->"

def renderSectionMarkdown (sec : SectionDraft) : Str :=
  joinNL ([embedH2WithId sec.h2 sec.h2_id, pyStrip sec.body] ++
    sec.h3_blocks.flatMap (fun b => [embedH3WithId b.h3 b.id, pyStrip b.body])) ++ ['\n']

/-- Python dict insertion: overwriting keeps the original position, a new
key goes to the end. -/
def dictSet (m : List (Str × SectionDraft)) (k : Str) (v : SectionDraft) :
    List (Str × SectionDraft) :=
  if (m.find? (fun p => decide (p.1 = k))).isSome then
    m.map (fun p => if p.1 = k then (k, v) else p)
  else m ++ [(k, v)]

/-- `{s.h2_id: s for s in sections}`. -/
def pyDict (sections : List SectionDraft) : List (Str × SectionDraft) :=
  sections.foldl (fun m s => dictSet m s.h2_id s) []

def dictGet (m : List (Str × SectionDraft)) (k : Str) : Option SectionDraft :=
  (m.find? (fun p => decide (p.1 = k))).map (·.2)

/-- `assemble_markdown`: keep plan order, skip outline items with no
matching section, embed id comments. -/
def assemble_markdown (plan : ArticlePlan) (sections : List SectionDraft) : Str :=
  let m := pyDict sections
  let ordered := plan.outline.filterMap
    (fun item => (dictGet m item.id).map renderSectionMarkdown)
  pyStrip (joinNL ordered) ++ ['\n']

/-! ## Heading-line matchers

`h2_pattern = ^## (.+?) <!-- id:([^>]+) -->\s*$` and the `###` variant.
The lazy title group is searched shortest-first; the id group cannot
contain the closing brace character of the comment, so its end is pinned
at the first such character. -/

/-- Parse `" <!-- id:" ++ id ++ " -->" ++ trailing-whitespace`, the part
of a heading line after the (lazy) title.  Mirrors
`" <!-- id:(?P<id>[^>]+) -->\s*$"`. -/
def parseIdTail (cs : Str) : Option Str :=
  match dropPre (str " <!-- id:") cs with
  | none => none
  | some rest =>
    let run := rest.takeWhile (fun c => decide (c ≠ '>'))
    match rest.drop run.length with
    | '>' :: tail =>
        if 4 ≤ run.length ∧ run.drop (run.length - 3) = str " --" ∧ tail.all pyIsSpace
        then some (run.take (run.length - 3))
        else none
    | _ => none

/-- Lazy search for the title split point, shortest title first (the
title needs at least one character). -/
def findTitleId : Str → Str → Option (Str × Str)
  | _, [] => none
  | accRev, c :: rest =>
    match parseIdTail rest with
    | some i => some ((c :: accRev).reverse, i)
    | none => findTitleId (c :: accRev) rest

/-- `h2_pattern.match(line)`, returning `(title, id)` on success. -/
def h2MatchLine (line : Str) : Option (Str × Str) :=
  match dropPre (str "## ") line with
  | none => none
  | some rest => findTitleId [] rest

/-- `h3_pattern.match(line)`, returning `(title, id)` on success. -/
def h3MatchLine (line : Str) : Option (Str × Str) :=
  match dropPre (str "### ") line with
  | none => none
  | some rest => findTitleId [] rest

/-! ## `_extract_body_lengths` -/

structure ScanState where
  h2L : List (Str × Nat) := []
  h3L : List (Str × Nat) := []
  curH2 : Option Str := none
  curBody2 : List Str := []
  curBody3 : List Str := []
  inH3 : Bool := false
  curH3 : Option Str := none
  deriving Repr

/-- `"".join([l.strip() for l in body if l.strip()])`. -/
def bodyTextH3 (ls : List Str) : Str :=
  joinEmpty ((ls.filter (fun l => decide (pyStrip l ≠ []))).map pyStrip)

/-- `"".join([l.strip() for l in body if l.strip() and not h3_pattern.match(l)])`. -/
def bodyTextH2 (ls : List Str) : Str :=
  joinEmpty ((ls.filter
    (fun l => decide (pyStrip l ≠ []) && (h3MatchLine l).isNone)).map pyStrip)

def flushH3 (s : ScanState) : ScanState :=
  let s2 :=
    match s.curH3 with
    | some i =>
        if s.curBody3 ≠ [] ∧ s.inH3 = true ∧ i ≠ [] then
          { s with h3L := s.h3L ++ [(i, (bodyTextH3 s.curBody3).length)] }
        else s
    | none => s
  { s2 with curBody3 := [], inH3 := false, curH3 := none }

def flushH2 (s : ScanState) : ScanState :=
  match s.curH2 with
  | some i =>
      { s with h2L := s.h2L ++ [(i, (bodyTextH2 s.curBody2).length)], curBody2 := [] }
  | none => { s with curBody2 := [] }

def scanStep (s : ScanState) (line : Str) : ScanState :=
  match h2MatchLine line with
  | some (_, i) =>
      let s1 := flushH2 (flushH3 s)
      { s1 with curH2 := some i, inH3 := false }
  | none =>
    match h3MatchLine line with
    | some (_, i) =>
        let s1 := flushH3 s
        { s1 with curBody3 := [], inH3 := true, curH3 := some i }
    | none =>
        let s1 := if s.inH3 then { s with curBody3 := s.curBody3 ++ [line] } else s
        if s1.curH2.isSome then { s1 with curBody2 := s1.curBody2 ++ [line] } else s1

/-- `_extract_body_lengths(markdown)`: per-heading body code-point counts
at both levels, in document order. -/
def extractBodyLengths (md : Str) : List (Str × Nat) × List (Str × Nat) :=
  let fin := flushH2 (flushH3 ((pySplitlines md).foldl scanStep {}))
  (fin.h2L, fin.h3L)

/-! ## `run_qc` -/

def assertiveLanguagePresent (md : Str) : Bool :=
  containsSub md (str "必ず") || containsSub md (str "絶対") ||
  containsSub md (str "断言") || containsSub md (str "保証")

/-- Python `min` over the length components (`0` when empty). -/
def minOr0 (l : List Nat) : Nat :=
  match l with
  | [] => 0
  | x :: xs => xs.foldl Nat.min x

/-- First-occurrence deduplication standing in for a Python set
comprehension; set iteration order is unspecified in Python, and every
theorem below that touches these issues is order-insensitive. -/
def pySetList (l : List Str) : List Str :=
  l.foldl (fun acc x => if x ∈ acc then acc else acc ++ [x]) []

def mMetaDesc : Str := str "meta_description_length"
def mH2Count : Str := str "h2_count"
def mMinH2 : Str := str "min_h2_length"
def mH3Len : Str := str "h3_length"
def mAssertive : Str := str "assertive_language_found"
def mOutlineId : Str := str "outline_id"
def mOutlineH3Id : Str := str "outline_h3_id"

def msgMetaLen (n : Nat) : Str := str "メタディス長が範囲外: " ++ natStr n
def msgH2Count (n : Nat) : Str := str "H2 本数が範囲外: " ++ natStr n
def msgMinH2 (n : Nat) : Str := str "H2 本文が短い (" ++ natStr n ++ str " 文字)"
def msgH3Hard (n : Nat) : Str := str "H3 本文が短い (" ++ natStr n ++ str " 文字)"
def msgH3Soft (n : Nat) : Str := str "H3 本文が短い (Soft) (" ++ natStr n ++ str " 文字)"
def msgAssertive : Str := str "断定的な表現が検出されました"
def msgMissingH2 (oid : Str) : Str := str "Markdown に outline id が見つかりません: " ++ oid
def msgMissingH3 (hid : Str) : Str := str "Markdown に H3 id が見つかりません: " ++ hid

/-- Rule 1: meta description length (after `strip`) inside `[80, 140]`. -/
def qcMetaIssues (metaLen : Nat) : List QcIssue :=
  if 80 ≤ metaLen ∧ metaLen ≤ 140 then []
  else [{ message := msgMetaLen metaLen, severity := QcSeverity.hard,
          metric := some mMetaDesc }]

/-- Rule 2: level-1 heading count inside `[4, 8]`. -/
def qcH2CountIssues (n : Nat) : List QcIssue :=
  if 4 ≤ n ∧ n ≤ 8 then []
  else [{ message := msgH2Count n, severity := QcSeverity.hard,
          metric := some mH2Count }]

/-- Rule 3: shortest level-1 body at least 300, targeting the first
heading attaining the minimum. -/
def qcMinH2Issues (h2L : List (Str × Nat)) : List QcIssue :=
  let minH2 := minOr0 (h2L.map (·.2))
  if minH2 < 300 then
    [{ message := msgMinH2 minH2, severity := QcSeverity.hard,
       target_id := (h2L.find? (fun p => decide (p.2 = minH2))).map (·.1),
       metric := some mMinH2 }]
  else []

/-- Rule 4: per level-2 body, `< 80` hard, `[80,120)` soft, otherwise
nothing. -/
def qcH3Issues (h3L : List (Str × Nat)) : List QcIssue :=
  h3L.flatMap (fun p =>
    if p.2 < 80 then
      [{ message := msgH3Hard p.2, severity := QcSeverity.hard,
         target_id := some p.1, metric := some mH3Len }]
    else if p.2 < 120 then
      [{ message := msgH3Soft p.2, severity := QcSeverity.soft,
         target_id := some p.1, metric := some mH3Len }]
    else [])

/-- Rule 5: assertive-language marker present anywhere. -/
def qcAssertiveIssues (found : Bool) : List QcIssue :=
  if found then
    [{ message := msgAssertive, severity := QcSeverity.soft,
       metric := some mAssertive }]
  else []

/-- Rule 6 (level 1): declared outline ids whose `"id:" ++ oid` marker is
not a substring of the markdown. -/
def qcOutlineIdIssues (outline : List OutlineItem) (md : Str) : List QcIssue :=
  let outlineIds := pySetList (outline.map (·.id))
  let missingIds := outlineIds.filter (fun oid => !containsSub md (str "id:" ++ oid))
  missingIds.map (fun oid =>
    { message := msgMissingH2 oid, severity := QcSeverity.hard,
      target_id := some oid, metric := some mOutlineId })

/-- Rule 6 (level 2): same check over declared sub-heading ids. -/
def qcH3OutlineIssues (outline : List OutlineItem) (md : Str) : List QcIssue :=
  let h3OutlineIds := pySetList ((outline.flatMap (·.h3)).map (·.id))
  let missingH3Ids := h3OutlineIds.filter (fun hid => !containsSub md (str "id:" ++ hid))
  missingH3Ids.map (fun hid =>
    { message := msgMissingH3 hid, severity := QcSeverity.hard,
      target_id := some hid, metric := some mOutlineH3Id })

/-- The issue list of `run_qc`, in emission order. -/
def qcIssuesOf (draft : ArticleDraft) : List QcIssue :=
  let ex := extractBodyLengths draft.markdown
  qcMetaIssues (pyStrip draft.meta_description).length ++
  qcH2CountIssues ex.1.length ++
  qcMinH2Issues ex.1 ++
  qcH3Issues ex.2 ++
  qcAssertiveIssues (assertiveLanguagePresent draft.markdown) ++
  qcOutlineIdIssues draft.outline draft.markdown ++
  qcH3OutlineIssues draft.outline draft.markdown

def run_qc (draft : ArticleDraft) : QcReport :=
  let ex := extractBodyLengths draft.markdown
  let issues := qcIssuesOf draft
  let hard_failed := issues.any (fun i => i.severity = QcSeverity.hard)
  let soft_failed := issues.any (fun i => i.severity = QcSeverity.soft)
  { hard_failed := hard_failed
    soft_failed := soft_failed
    issues := issues
    measurements :=
      { meta_description_length := (pyStrip draft.meta_description).length
        markdown_length := draft.markdown.length
        h2_count := ex.1.length
        h3_count := ex.2.length
        min_h2_length := minOr0 (ex.1.map (·.2))
        min_h3_length := minOr0 (ex.2.map (·.2))
        faq_count := draft.faq.length
        assertive_language_found := assertiveLanguagePresent draft.markdown
        regenerate_required := hard_failed } }

/-! ## `LLMOrchestrator.revise` -/

/-- The contribution of one issue to `sections_to_regenerate` (one loop
iteration of `revise`). -/
def issueRegen (i : QcIssue) : List Str :=
  let a :=
    match i.target_id with
    | some t =>
        if (i.metric = some mMinH2 ∨ i.metric = some mOutlineId) ∧
            t ≠ [] then [t] else []
    | none => []
  let b :=
    match i.target_id with
    | some t =>
        if (i.metric = some mH3Len ∨ i.metric = some mOutlineH3Id) ∧
            t ≠ [] then
          if containsSub t ['-'] then
            let p := (splitOnChar '-' t).getD 1 []
            if p ≠ [] then [str "h2-" ++ p] else []
          else []
        else []
    | none => []
  a ++ b

def revise (_draft : ArticleDraft) (report : QcReport) : ReviseRequest :=
  { sections_to_regenerate := report.issues.flatMap issueRegen
    reasons := report.issues.map (·.message)
    hard_fail := report.hard_failed }

/-! ## Well-formedness predicates for the assemble/extract round trip

The amended round-trip claim quantifies over sections whose headings,
ids and bodies are well formed: single-line, nonempty, whitespace-trimmed
bodies that match neither heading pattern, heading texts without line
breaks, ids without `>` or line breaks. -/

def noBreaks (s : Str) : Prop := ∀ c ∈ s, pyIsLineBreak c = false

def goodTitle (s : Str) : Prop := s ≠ [] ∧ noBreaks s

def goodId (s : Str) : Prop := s ≠ [] ∧ '>' ∉ s ∧ noBreaks s

def goodBody (b : Str) : Prop :=
  b ≠ [] ∧ noBreaks b ∧
  (∀ c, b.head? = some c → pyIsSpace c = false) ∧
  (∀ c, b.getLast? = some c → pyIsSpace c = false) ∧
  h2MatchLine b = none ∧ h3MatchLine b = none

def goodSection (s : SectionDraft) : Prop :=
  goodTitle s.h2 ∧ goodId s.h2_id ∧ goodBody s.body ∧
  ∀ b ∈ s.h3_blocks, goodTitle b.h3 ∧ goodId b.id ∧ goodBody b.body

instance (s : Str) : Decidable (noBreaks s) :=
  inferInstanceAs (Decidable (∀ c ∈ s, pyIsLineBreak c = false))

instance (s : Str) : Decidable (goodTitle s) :=
  inferInstanceAs (Decidable (_ ∧ _))

instance (s : Str) : Decidable (goodId s) :=
  inferInstanceAs (Decidable (_ ∧ _ ∧ _))

instance (o : Option Char) : Decidable (∀ c, o = some c → pyIsSpace c = false) :=
  match o with
  | none => isTrue (by intro c h; cases h)
  | some c0 =>
      if h : pyIsSpace c0 = false then
        isTrue (by intro c hc; injection hc with e; subst e; exact h)
      else isFalse (fun hall => h (hall c0 rfl))

instance (b : Str) : Decidable (goodBody b) :=
  inferInstanceAs (Decidable (_ ∧ _ ∧ _ ∧ _ ∧ _ ∧ _))

instance (s : SectionDraft) : Decidable (goodSection s) :=
  inferInstanceAs (Decidable (_ ∧ _ ∧ _ ∧ _))

/-- The lines a rendered section block contributes to the document. -/
def blockLines (s : SectionDraft) : List Str :=
  embedH2WithId s.h2 s.h2_id :: pyStrip s.body ::
    s.h3_blocks.flatMap (fun b => [embedH3WithId b.h3 b.id, pyStrip b.body])

/-- The full line sequence of an assembled document: the blocks in
order, separated by one blank line. -/
def docLines : List SectionDraft → List Str
  | [] => []
  | s :: rest => blockLines s ++ rest.flatMap (fun s2 => [] :: blockLines s2)

/-- The level-1 output the scanner would produce if the input ended in
state `st` (the final `flush_h2` applied to the pending block). -/
def h2Final (st : ScanState) : List (Str × Nat) :=
  st.h2L ++
    (match st.curH2 with
     | some i => [(i, (bodyTextH2 st.curBody2).length)]
     | none => [])

/-! ## WordPress client (`infrastructure/wordpress/client.py`)

Exceptions escaping the embedded code are modelled as `Except.error`
carrying a message string. -/

abbrev Exc := Str

structure WordPressPostResult where
  success : Bool
  post_id : Option Int := none
  url : Option Str := none
  error_message : Option Str := none
  status_code : Option Nat := none
  deriving DecidableEq, Repr

/-- The JSON body of an HTTP response, as far as the client reads it:
`data.get("id")`, `data.get("link")`, `data.get("message")`,
`data.get("code")` (absent keys are `none`). -/
structure WpJson where
  id : Option Int := none
  link : Option Str := none
  message : Option Str := none
  code : Option Str := none
  deriving DecidableEq, Repr

/-- One POST attempt's outcome at the transport layer: the `httpx`
client raised a `RequestError` (carrying `str(exc)`), or a response
arrived with a status code, a parsed JSON body (`none` models
`response.json()` raising) and raw text. -/
inductive WpAttempt where
  | requestError (msg : Str)
  | response (status : Nat) (json : Option WpJson) (text : Str)
  deriving DecidableEq, Repr

/-- The environment of `WordPressClient.create_draft`: the outcome of
`_build_payload` (which delegates to the markdown renderer and the
site adapter and may raise; its contents are never read back, so only
the raise/no-raise outcome is kept) and, for each 1-based attempt
number, the outcome of that POST. -/
structure WpEnv where
  buildPayload : Except Exc Unit
  attempt : Nat → WpAttempt

/-- The exception raised by `response.json()` on a malformed body. -/
def excJsonDecode : Exc := str "json.decoder.JSONDecodeError"

/-- `WordPressClient._format_error`: message is `data.get("message")
or response.text` (empty/absent falls back to the raw text), prefixed
with the status and, when truthy, the error code; if `response.json()`
raises, the raw text is used. -/
def formatError (status : Nat) (json : Option WpJson) (text : Str) : Str :=
  match json with
  | none => str "HTTP " ++ natStr status ++ str ": " ++ text
  | some d =>
      let msg := match d.message with
        | some m => if m = [] then text else m
        | none => text
      match d.code with
      | some c =>
          if c = [] then str "HTTP " ++ natStr status ++ str ": " ++ msg
          else str "HTTP " ++ natStr status ++ str " " ++ c ++ str ": " ++ msg
      | none => str "HTTP " ++ natStr status ++ str ": " ++ msg

/-- The retry loop of `create_draft`, counting down the attempts left
in `range(1, max_retries + 1)`. Returns the outcome (`Except.error`
models an exception escaping the method), the number of POSTs
performed, and the back-off sleeps requested, in seconds. -/
def wpLoop (env : WpEnv) (maxRetries : Nat) (backoffBase : ℚ) :
    Nat → Nat → Option Str → Option Nat →
    Except Exc WordPressPostResult × Nat × List ℚ
  | 0, _, lastError, lastStatus =>
      (Except.ok { success := false, error_message := lastError,
                   status_code := lastStatus }, 0, [])
  | remaining + 1, attempt, _lastError, lastStatus =>
      let next := fun (e : Option Str) (st : Option Nat) =>
        if remaining = 0 then
          (Except.ok { success := false, error_message := e,
                       status_code := st }, 1, ([] : List ℚ))
        else
          match wpLoop env maxRetries backoffBase remaining (attempt + 1) e st with
          | (res, n, sleeps) =>
              (res, n + 1, backoffBase * (2 : ℚ) ^ (attempt - 1) :: sleeps)
      match env.attempt attempt with
      | WpAttempt.requestError msg => next (some msg) lastStatus
      | WpAttempt.response status json text =>
          if 200 ≤ status ∧ status < 300 then
            match json with
            | none => (Except.error excJsonDecode, 1, [])
            | some d =>
                (Except.ok { success := true, post_id := d.id, url := d.link,
                             status_code := some status }, 1, [])
          else next (some (formatError status json text)) (some status)

/-- `WordPressClient.create_draft`: build the payload, then run the
retry loop starting at attempt 1 with no error or status recorded. -/
def create_draft (env : WpEnv) (maxRetries : Nat) (backoffBase : ℚ) :
    Except Exc WordPressPostResult × Nat × List ℚ :=
  match env.buildPayload with
  | Except.error e => (Except.error e, 0, [])
  | Except.ok _ => wpLoop env maxRetries backoffBase maxRetries 1 none none

/-- The error string an attempt's outcome contributes to `last_error`
when it does not succeed. -/
def attemptError (a : WpAttempt) : Str :=
  match a with
  | WpAttempt.requestError msg => msg
  | WpAttempt.response status json text => formatError status json text

/-- The update an attempt's outcome applies to `last_status`: responses
record their status code, transport errors leave it unchanged. -/
def statusUpd (a : WpAttempt) (lastStatus : Option Nat) : Option Nat :=
  match a with
  | WpAttempt.requestError _ => lastStatus
  | WpAttempt.response status _ _ => some status

/-- The value of `last_status` after attempts `1..k` have all been
observed without returning. -/
def lastRespStatus (env : WpEnv) : Nat → Option Nat
  | 0 => none
  | k + 1 => statusUpd (env.attempt (k + 1)) (lastRespStatus env k)

/-- The attempt's outcome neither succeeds nor raises: a transport
error, or a response with a non-2xx status. -/
def attemptFails (a : WpAttempt) : Prop :=
  match a with
  | WpAttempt.requestError _ => True
  | WpAttempt.response status _ _ => ¬ (200 ≤ status ∧ status < 300)

instance (a : WpAttempt) : Decidable (attemptFails a) :=
  match a with
  | WpAttempt.requestError _ => isTrue trivial
  | WpAttempt.response status _ _ =>
      inferInstanceAs (Decidable (¬ (200 ≤ status ∧ status < 300)))

/-! ## Orchestrator pipeline (`usecases/create_drafts.py`) -/

/-- The dictionary `_soft_qc` returns: fix targets, a
target-to-instruction map, and notes. -/
structure SoftQcData where
  fix_targets : List Str := []
  fix_instructions : List (Str × Str) := []
  overall_notes : Str := []
  deriving DecidableEq, Repr

/-- The decode of one raw soft-QC completion: `json.loads` raised
`JSONDecodeError`, some other exception was raised while reading the
fields, or a dictionary was obtained (`.get` defaults applied). -/
inductive SoftParse where
  | jsonError
  | raise (e : Exc)
  | ok (d : SoftQcData)
  deriving DecidableEq, Repr

/-- The oracles behind `create_article_draft`'s language-model and
adapter calls: the parsed plan, the parsed section drafts (numbered in
drafting order), the raw soft-QC completions of each loop iteration and
their decode, the parsed replacement sections of each revise call
(malformed revise JSON and skipped records already folded in), and the
FAQ result. `Except.error` models an exception raised inside the
call. -/
structure OrchEnv where
  planArticle : Except Exc ArticlePlan
  sectionFor : Nat → Except Exc SectionDraft
  softQcRaw : Nat → Except Exc Str
  decodeSoft : Str → SoftParse
  reviseSections : Nat → Except Exc (List SectionDraft)
  faqResult : Except Exc (List FaqItem)

/-- The section-drafting loop of `draft_article`: one
`parse_section_response` result per outline item, propagating the
first exception. -/
def draftSections (env : OrchEnv) : List OutlineItem → Nat →
    Except Exc (List SectionDraft)
  | [], _ => Except.ok []
  | _ :: rest, n =>
      match env.sectionFor n with
      | Except.error e => Except.error e
      | Except.ok s =>
          match draftSections env rest (n + 1) with
          | Except.error e => Except.error e
          | Except.ok ss => Except.ok (s :: ss)

/-- `LLMOrchestrator.draft_article`: draft every outline section in
order, assemble the markdown, build the `ArticleDraft`, run QC and
store its measurements on the draft. -/
def draft_article (env : OrchEnv) (plan : ArticlePlan) :
    Except Exc (ArticleDraft × QcReport) :=
  match draftSections env plan.outline 0 with
  | Except.error e => Except.error e
  | Except.ok sections =>
      let markdown := assemble_markdown plan sections
      let draft : ArticleDraft :=
        { title := plan.title, slug := plan.slug,
          meta_description := plan.meta_description, outline := plan.outline,
          markdown := markdown, sections := sections, faq := [],
          tags_suggestions := plan.tags_suggestions,
          volatile_topics := plan.volatile_topics,
          safe_assertions := plan.safe_assertions, notes := plan.notes }
      let qc := run_qc draft
      Except.ok ({ draft with quality_self_check := some qc.measurements }, qc)

/-- `LLMOrchestrator._soft_qc` for the `k`-th soft-QC call: a
`JSONDecodeError` from `json.loads` degrades to the default dictionary
with an empty fix-target list; any other exception propagates. -/
def softQc (env : OrchEnv) (k : Nat) : Except Exc SoftQcData :=
  match env.softQcRaw k with
  | Except.error e => Except.error e
  | Except.ok raw =>
      match env.decodeSoft raw with
      | SoftParse.jsonError =>
          Except.ok { fix_targets := [], fix_instructions := [],
                      overall_notes := str "JSON parse failed" }
      | SoftParse.raise e => Except.error e
      | SoftParse.ok d => Except.ok d

/-- `LLMOrchestrator._replace_sections`: replace matching ids in
place, then append replacement sections whose id is not yet present,
in replacement-map order. -/
def replaceSections (base repl : List SectionDraft) : List SectionDraft :=
  let replaceMap := pyDict repl
  let result := base.map (fun sec =>
    match dictGet replaceMap sec.h2_id with
    | some s => s
    | none => sec)
  replaceMap.foldl
    (fun res p =>
      if res.any (fun s => decide (s.h2_id = p.1)) then res else res ++ [p.2])
    result

/-- `LLMOrchestrator._apply_revise` for the `k`-th revise call: the
replacement sections come from the oracle, then the real merge,
re-assembly and QC run. -/
def applyRevise (env : OrchEnv) (k : Nat) (draft : ArticleDraft)
    (plan : ArticlePlan) : Except Exc (ArticleDraft × QcReport) :=
  match env.reviseSections k with
  | Except.error e => Except.error e
  | Except.ok newSections =>
      let merged := replaceSections draft.sections newSections
      let markdown := assemble_markdown plan merged
      let revised := { draft with
        markdown := markdown, sections := merged,
        outline := plan.outline,
        tags_suggestions := plan.tags_suggestions,
        volatile_topics := plan.volatile_topics,
        safe_assertions := plan.safe_assertions }
      let qc := run_qc revised
      Except.ok ({ revised with quality_self_check := some qc.measurements }, qc)

/-- The soft-QC loop of `create_article_draft` (`for attempt in
range(max_soft_retries)`), counting the `_apply_revise` calls made.
`Sum.inl` is the early return taken when a revision hard-fails,
`Sum.inr` falls through to FAQ generation. -/
def softLoop (env : OrchEnv) (plan : ArticlePlan) :
    Nat → Nat → ArticleDraft → QcReport →
    Except Exc ((ArticleDraft × QcReport × Option ReviseRequest) ⊕
      (ArticleDraft × QcReport)) × Nat
  | 0, _, d, qc => (Except.ok (Sum.inr (d, qc)), 0)
  | fuel + 1, attempt, d, qc =>
      if qc.soft_failed = false then (Except.ok (Sum.inr (d, qc)), 0)
      else
        match softQc env attempt with
        | Except.error e => (Except.error e, 0)
        | Except.ok soft =>
            if soft.fix_targets = [] then (Except.ok (Sum.inr (d, qc)), 0)
            else
              match applyRevise env attempt d plan with
              | Except.error e => (Except.error e, 1)
              | Except.ok (d2, qc2) =>
                  if qc2.hard_failed then
                    let req := revise d2 qc2
                    (Except.ok (Sum.inl (d2, qc2, some { req with reasons :=
                        req.reasons ++ [str "Soft QC 修正中に Hard fail が発生"] })),
                     1)
                  else
                    match softLoop env plan fuel (attempt + 1) d2 qc2 with
                    | (res, n) => (res, n + 1)

/-- `create_article_draft`: the full Plan, Draft, QC, Revise pipeline,
paired with the number of `_apply_revise` calls it made. -/
def create_article_draft (env : OrchEnv) :
    Except Exc (ArticleDraft × QcReport × Option ReviseRequest) × Nat :=
  match env.planArticle with
  | Except.error e => (Except.error e, 0)
  | Except.ok plan =>
      match draft_article env plan with
      | Except.error e => (Except.error e, 0)
      | Except.ok (draft, qc) =>
          if qc.hard_failed then
            (Except.ok (draft, qc, some (revise draft qc)), 0)
          else
            match softLoop env plan 2 0 draft qc with
            | (Except.error e, n) => (Except.error e, n)
            | (Except.ok (Sum.inl r), n) => (Except.ok r, n)
            | (Except.ok (Sum.inr (d2, _qc2)), n) =>
                match env.faqResult with
                | Except.error e => (Except.error e, n)
                | Except.ok faq =>
                    let d3 := { d2 with faq := faq }
                    let fqc := run_qc d3
                    let d4 := { d3 with quality_self_check := some fqc.measurements }
                    if fqc.hard_failed then
                      let req := revise d4 fqc
                      (Except.ok (d4, fqc, some { req with reasons :=
                          req.reasons ++ [str "最終 QC でハード NG"] }), n)
                    else if fqc.soft_failed then
                      let req := revise d4 fqc
                      (Except.ok (d4, fqc, some { req with reasons :=
                          req.reasons ++ [str "最終 QC でソフト NG (許容可否を判断)"] }), n)
                    else (Except.ok (d4, fqc, none), n)

/-- The QC report of the initial `draft_article` run, when plan and
draft both succeed. -/
def cadInitQc (env : OrchEnv) : Option QcReport :=
  match env.planArticle with
  | Except.error _ => none
  | Except.ok plan =>
      match draft_article env plan with
      | Except.error _ => none
      | Except.ok (_, qc) => some qc

/-! ## Batch planning models (`domain/models/llm_generation.py`,
`domain/models/briefs.py`) -/

structure BatchPlanItem where
  article_id : Str
  title : Str
  angle : Str
  target_audience : Str
  search_intent : Str
  differentiator : Str
  avoid_overlap_with : List Str := []
  outline_hint : Option (List Str) := none
  deriving DecidableEq, Repr

structure BatchPlan where
  batch_id : Str
  items : List BatchPlanItem
  deriving DecidableEq, Repr

/-- `BatchBrief` (the `Any`-typed `constraints` payload is abstracted
as an opaque optional string; the batch runner never reads it). -/
structure BatchBrief where
  topic : Str
  target_site : Str
  desired_count : Nat := 10
  audience : Option Str := none
  purpose : Option Str := none
  constraints : Option Str := none
  deriving DecidableEq, Repr

/-! ## Job state (imported by `usecases/run_batch_job.py` from
`domain.models`; the module defining these classes is not present
under `src/`, so they are modelled from the spec) -/

/-- Modelled from the spec: a job's status is one of
`queued|running|done|failed`. -/
inductive JobStatus where
  | queued
  | running
  | done
  | failed
  deriving DecidableEq, Repr

/-- Modelled from the spec: item index, title, draft-accepted flag,
optional error message, publish-accepted flag, optional published post
identifier/URL. The optional fields start unset. -/
structure JobResultItem where
  index : Nat
  title : Str
  draft_ok : Option Bool := none
  wp_ok : Option Bool := none
  wp_post_id : Option Int := none
  wp_url : Option Str := none
  error : Option Str := none
  deriving DecidableEq, Repr

/-- Modelled from the spec: job identifier, status, total item count,
current progress count, append-only log lines, ordered list of
`JobResultItem`, start/finish timestamps (kept abstract as strings). -/
structure JobState where
  job_id : Str
  status : JobStatus
  total : Nat := 0
  current : Nat := 0
  logs : List Str := []
  results : List JobResultItem := []
  started_at : Option Str := none
  finished_at : Option Str := none
  deriving DecidableEq, Repr

/-! ## Batch runner (`usecases/run_batch_job.py`) -/

/-- The oracles behind one run of `run_batch_job`: the parsed batch
plan, and per item index the orchestrator-call outcomes (plan,
sections, soft-QC completions by loop attempt, revise results, FAQ)
plus the WordPress publish result. The clock oracle supplies the two
timestamps taken. The job store is modelled as non-failing: the
returned `JobState` is the single mutated aggregate it observes. -/
structure BatchEnv where
  batchPlan : Except Exc BatchPlan
  planArticleB : Nat → Except Exc ArticlePlan
  sectionForB : Nat → Nat → Except Exc SectionDraft
  softQcRawB : Nat → Nat → Except Exc Str
  decodeSoftB : Str → SoftParse
  reviseSectionsB : Nat → Nat → Except Exc (List SectionDraft)
  faqResultB : Nat → Except Exc (List FaqItem)
  publish : Nat → Except Exc WordPressPostResult
  nowStart : Str := []
  nowFinish : Str := []

/-- The orchestrator-call oracles restricted to one batch item. -/
def mkOrchEnv (env : BatchEnv) (idx : Nat) : OrchEnv :=
  { planArticle := env.planArticleB idx,
    sectionFor := env.sectionForB idx,
    softQcRaw := env.softQcRawB idx,
    decodeSoft := env.decodeSoftB,
    reviseSections := env.reviseSectionsB idx,
    faqResult := env.faqResultB idx }

/-- The inline soft-QC / revise loop of `run_batch_job` (`for _ in
range(2)`): unlike `create_article_draft`'s loop it simply breaks out
on a hard failure. -/
def batchSoftLoop (env : OrchEnv) (plan : ArticlePlan) :
    Nat → Nat → ArticleDraft → QcReport →
    Except Exc (ArticleDraft × QcReport)
  | 0, _, d, qc => Except.ok (d, qc)
  | fuel + 1, attempt, d, qc =>
      if qc.soft_failed = false then Except.ok (d, qc)
      else
        match softQc env attempt with
        | Except.error e => Except.error e
        | Except.ok soft =>
            if soft.fix_targets = [] then Except.ok (d, qc)
            else
              match applyRevise env attempt d plan with
              | Except.error e => Except.error e
              | Except.ok (d2, qc2) =>
                  if qc2.hard_failed then Except.ok (d2, qc2)
                  else batchSoftLoop env plan fuel (attempt + 1) d2 qc2

/-- One batch item's drafting stages (lines 81-108 of
`run_batch_job.py`): plan the article, draft it, and when not
hard-failed run the soft loop and then FAQ generation plus a final QC;
the returned pair is what the result record is built from. -/
def itemFinalQc (env : BatchEnv) (idx : Nat) :
    Except Exc (ArticleDraft × QcReport) :=
  let oenv := mkOrchEnv env idx
  match oenv.planArticle with
  | Except.error e => Except.error e
  | Except.ok plan =>
      match draft_article oenv plan with
      | Except.error e => Except.error e
      | Except.ok (draft0, qc0) =>
          if qc0.hard_failed then Except.ok (draft0, qc0)
          else
            match batchSoftLoop oenv plan 2 0 draft0 qc0 with
            | Except.error e => Except.error e
            | Except.ok (d1, qc1) =>
                if qc1.hard_failed then Except.ok (d1, qc1)
                else
                  match oenv.faqResult with
                  | Except.error e => Except.error e
                  | Except.ok faq =>
                      let d2 := { d1 with faq := faq }
                      let qc2 := run_qc d2
                      Except.ok
                        ({ d2 with quality_self_check := some qc2.measurements },
                         qc2)

/-- The hard-failure verdict the item's final QC reaches, when no
exception interrupts it. -/
def itemHardQc (env : BatchEnv) (idx : Nat) : Option Bool :=
  match itemFinalQc env idx with
  | Except.error _ => none
  | Except.ok (_, qc) => some qc.hard_failed

/-- The messages of the item's final QC issues, when no exception
interrupts it. -/
def itemQcMessages (env : BatchEnv) (idx : Nat) : Option (List Str) :=
  match itemFinalQc env idx with
  | Except.error _ => none
  | Except.ok (_, qc) => some (qc.issues.map (fun i => i.message))

/-- Python string interpolation of an optional value (`None` prints as
`"None"`). -/
def optStr (o : Option Str) : Str :=
  match o with
  | some s => s
  | none => str "None"

/-- The `"[{idx+1}/{job.total}] "` prefix of the per-item log lines. -/
def itemLogPrefix (idx total : Nat) : Str :=
  str "[" ++ natStr (idx + 1) ++ str "/" ++ natStr total ++ str "] "

/-- One item of the loop body (lines 110-126): the `JobResultItem`
built, whether the publisher was invoked, and the log line appended. -/
def processItem (env : BatchEnv) (idx total : Nat) :
    Except Exc (JobResultItem × Bool × Str) :=
  match itemFinalQc env idx with
  | Except.error e => Except.error e
  | Except.ok (draft, qc) =>
      if qc.hard_failed then
        let err := joinSemi (qc.issues.map (fun i => i.message))
        Except.ok
          ({ index := idx, title := draft.title, draft_ok := some false,
             error := some err },
           false,
           itemLogPrefix idx total ++ str "Draft failed: " ++ err)
      else
        match env.publish idx with
        | Except.error e => Except.error e
        | Except.ok wp =>
            Except.ok
              ({ index := idx, title := draft.title, draft_ok := some true,
                 wp_ok := some wp.success, wp_post_id := wp.post_id,
                 wp_url := wp.url, error := wp.error_message },
               true,
               if wp.success then
                 itemLogPrefix idx total ++ str "WP draft created: " ++
                   optStr wp.url
               else
                 itemLogPrefix idx total ++ str "WP draft failed: " ++
                   optStr wp.error_message)

def isOkE {α : Type} (e : Except Exc α) : Bool :=
  match e with
  | Except.ok _ => true
  | Except.error _ => false

/-- The item outcome under the assumption it raises no exception (a
placeholder triple otherwise). -/
def itemResultD (env : BatchEnv) (total idx : Nat) :
    JobResultItem × Bool × Str :=
  match processItem env idx total with
  | Except.ok r => r
  | Except.error _ => ({ index := idx, title := [] }, false, [])

/-- The item loop (`for idx, item in enumerate(batch_plan.items)`):
returns the job after the processed prefix, the indices for which the
publisher was invoked, and - when an exception escaped an item - that
exception with its index (the loop stops there). -/
def runBatchLoop (env : BatchEnv) : List BatchPlanItem → Nat → JobState →
    JobState × List Nat × Option (Nat × Exc)
  | [], _, job => (job, [], none)
  | _ :: rest, idx, job =>
      match processItem env idx job.total with
      | Except.error e => (job, [], some (idx, e))
      | Except.ok (res, pub, logLine) =>
          let job2 := { job with
            logs := job.logs ++ [logLine],
            results := job.results ++ [res],
            current := job.current + 1 }
          match runBatchLoop env rest (idx + 1) job2 with
          | (jobF, pubs, exc) =>
              (jobF, (if pub then [idx] else []) ++ pubs, exc)

/-- `job_store.get(job_id) or JobState(job_id=job_id,
status=queued, total=batch_brief.desired_count)`. -/
def initialJob (job_id : Str) (brief : BatchBrief)
    (stored : Option JobState) : JobState :=
  stored.getD { job_id := job_id, status := JobStatus.queued,
                total := brief.desired_count }

/-- `run_batch_job`: mark the job running, plan the batch, process the
items, and stamp a terminal status. The `try/except` around the body
turns any escaping exception into `status = failed` plus a log line,
and `finally: return job` means the function itself never raises; the
third component reports the caught exception (with the item index the
loop stopped at, `none` when `batch_plan` itself raised) so the
exception path stays observable. The second component is the trace of
publish-call indices. -/
def run_batch_job (env : BatchEnv) (job_id : Str) (brief : BatchBrief)
    (stored : Option JobState) :
    JobState × List Nat × Option (Option Nat × Exc) :=
  let job0 := initialJob job_id brief stored
  let job1 := { job0 with
    status := JobStatus.running,
    started_at := some env.nowStart,
    total := brief.desired_count }
  match env.batchPlan with
  | Except.error e =>
      ({ job1 with
          logs := job1.logs ++ [str "Job failed: " ++ e],
          status := JobStatus.failed,
          finished_at := some env.nowFinish },
       [], some (none, e))
  | Except.ok bp =>
      let job2 := { job1 with total := bp.items.length }
      match runBatchLoop env bp.items 0 job2 with
      | (jobF, pubs, none) =>
          ({ jobF with
              status := JobStatus.done,
              finished_at := some env.nowFinish }, pubs, none)
      | (jobF, pubs, some (k, e)) =>
          ({ jobF with
              logs := jobF.logs ++ [str "Job failed: " ++ e],
              status := JobStatus.failed,
              finished_at := some env.nowFinish },
           pubs, some (some k, e))

/-- The result records the item loop accumulates for `n` consecutive
items starting at `idx`, assuming no item raises. -/
def loopResults (env : BatchEnv) (total : Nat) : Nat → Nat → List JobResultItem
  | _, 0 => []
  | idx, n + 1 =>
      (itemResultD env total idx).1 :: loopResults env total (idx + 1) n

/-- The log lines the item loop appends for `n` consecutive items
starting at `idx`, assuming no item raises. -/
def loopLogs (env : BatchEnv) (total : Nat) : Nat → Nat → List Str
  | _, 0 => []
  | idx, n + 1 =>
      (itemResultD env total idx).2.2 :: loopLogs env total (idx + 1) n

/-- The publish-call indices the item loop records for `n` consecutive
items starting at `idx`, assuming no item raises. -/
def loopPubs (env : BatchEnv) (total : Nat) : Nat → Nat → List Nat
  | _, 0 => []
  | idx, n + 1 =>
      (if (itemResultD env total idx).2.1 then [idx] else []) ++
        loopPubs env total (idx + 1) n

/-! ## Concrete inputs used by witnesses and counterexamples -/

def emptyMeasurements : QualitySelfCheck :=
  { meta_description_length := 0, markdown_length := 0, h2_count := 0,
    h3_count := 0, min_h2_length := 0, min_h3_length := 0, faq_count := 0,
    assertive_language_found := false, regenerate_required := false }

def emptyDraft : ArticleDraft :=
  { title := [], slug := [], meta_description := [], outline := [], markdown := [] }

/-- A soft level-2 issue targeting `h3-2-1`. -/
def issueH3W : QcIssue :=
  { message := str "m", severity := QcSeverity.soft,
    target_id := some (str "h3-2-1"), metric := some mH3Len }

/-- A report with a single soft level-2 issue targeting `h3-2-1`. -/
def reportH3Issue : QcReport :=
  { hard_failed := false, soft_failed := true,
    issues := [issueH3W],
    measurements := emptyMeasurements }

/-- Round-trip witness input: one well-formed section. -/
def planRT : ArticlePlan :=
  { title := str "t", slug := str "s", meta_description := str "m",
    outline := [{ id := str "h2-1", h2 := str "T" }] }

def sectionsRT : List SectionDraft :=
  [{ h2_id := str "h2-1", h2 := str "T", body := str "hello world" }]

/-- Round-trip counterexample input: a section whose body contains a
newline (its two lines match neither heading pattern). -/
def planRTCex : ArticlePlan :=
  { title := str "t", slug := str "s", meta_description := str "m",
    outline := [{ id := str "h2-1", h2 := str "T" }] }

def sectionsRTCex : List SectionDraft :=
  [{ h2_id := str "h2-1", h2 := str "T", body := str "a\nb" }]

/-- C5 counterexample input: outline declares `h2-3` and `h2-31`; the
markdown embeds only `h2-31`'s id comment. -/
def draftPrefixId : ArticleDraft :=
  { title := [], slug := [], meta_description := [],
    outline := [{ id := str "h2-3", h2 := str "A" },
                { id := str "h2-31", h2 := str "B" }],
    markdown := str "## B <!-- id:h2-31 -->\nbody\n" }

/-- C3 witness input: every attempt yields an HTTP 500 response with a
well-formed error body. -/
def envWp500 : WpEnv :=
  { buildPayload := Except.ok (),
    attempt := fun _ => WpAttempt.response 500
      (some { message := some (str "boom"), code := some (str "oops") })
      (str "raw") }

/-- C3 counterexample input: every attempt yields an HTTP 200 response
whose body fails to parse as JSON. -/
def envWpBadJson : WpEnv :=
  { buildPayload := Except.ok (),
    attempt := fun _ => WpAttempt.response 200 none (str "not json") }

/-- C8 witness input: a plan whose assembled draft passes all hard QC
rules but trips the soft assertive-language rule (the first body opens
with the assertive phrase), so the soft loop is entered. -/
def planSoft0 : ArticlePlan :=
  { title := str "t", slug := str "s",
    meta_description := List.replicate 80 'm',
    outline := [{ id := str "h2-1", h2 := str "A" },
                { id := str "h2-2", h2 := str "B" },
                { id := str "h2-3", h2 := str "C" },
                { id := str "h2-4", h2 := str "D" }] }

def secSoft0 (k : Nat) : SectionDraft :=
  { h2_id := str "h2-" ++ natStr (k + 1), h2 := str "A",
    body := if k = 0 then '必' :: 'ず' :: List.replicate 298 'x'
            else List.replicate 300 'x' }

/-- C8 witness environment: soft QC answers are not JSON, so the decode
degrades to an empty fix-target list. -/
def envSoft0 : OrchEnv :=
  { planArticle := Except.ok planSoft0,
    sectionFor := fun k => Except.ok (secSoft0 k),
    softQcRaw := fun _ => Except.ok (str "x"),
    decodeSoft := fun _ => SoftParse.jsonError,
    reviseSections := fun _ => Except.ok [],
    faqResult := Except.ok [] }

/-- The draft/report pair `draft_article` computes on the C8 witness
input. -/
def cadInit0 : ArticleDraft × QcReport :=
  match draft_article envSoft0 planSoft0 with
  | Except.ok p => p
  | Except.error _ => (emptyDraft, reportH3Issue)

/-- C1 witness input: a two-item batch plan. -/
def itemB1 : BatchPlanItem :=
  { article_id := str "a", title := str "T", angle := str "g",
    target_audience := str "u", search_intent := str "i",
    differentiator := str "d" }

def bpB1 : BatchPlan := { batch_id := str "b", items := [itemB1, itemB1] }

/-- A plan whose empty outline makes the drafted article hard-fail QC
(meta length 0, no level-1 sections). -/
def planEmptyB : ArticlePlan :=
  { title := str "t", slug := str "s", meta_description := [], outline := [] }

def secB (k : Nat) : SectionDraft :=
  { h2_id := str "h2-" ++ natStr (k + 1), h2 := str "A",
    body := List.replicate 300 'x' }

/-- A plan whose assembled draft passes every QC rule (hard and soft)
with the `secB` sections. -/
def planCleanB : ArticlePlan :=
  { title := str "t", slug := str "s",
    meta_description := List.replicate 80 'm',
    outline := [{ id := str "h2-1", h2 := str "A" },
                { id := str "h2-2", h2 := str "B" },
                { id := str "h2-3", h2 := str "C" },
                { id := str "h2-4", h2 := str "D" }] }

/-- C1 witness environment: item 0 hard-fails QC, item 1 drafts cleanly
and publishes successfully. -/
def envB1 : BatchEnv :=
  { batchPlan := Except.ok bpB1,
    planArticleB := fun idx =>
      Except.ok (if idx = 0 then planEmptyB else planCleanB),
    sectionForB := fun _ k => Except.ok (secB k),
    softQcRawB := fun _ _ => Except.ok (str "x"),
    decodeSoftB := fun _ => SoftParse.jsonError,
    reviseSectionsB := fun _ _ => Except.ok [],
    faqResultB := fun _ => Except.ok [],
    publish := fun _ => Except.ok
      { success := true, post_id := some 5, url := some (str "u") },
    nowStart := str "t0", nowFinish := str "t1" }

def briefB1 : BatchBrief := { topic := str "t", target_site := str "w" }

/-! ## Issue-block lemmas -/

/-- Select the issues carrying a given metric name. -/
def filterMetric (m : Str) (l : List QcIssue) : List QcIssue :=
  l.filter (fun i => decide (i.metric = some m))

lemma mem_qcMetaIssues_metric {i : QcIssue} {n : Nat} (h : i ∈ qcMetaIssues n) :
    i.metric = some mMetaDesc := by
  unfold qcMetaIssues at h
  split at h <;> simp_all

lemma mem_qcH2CountIssues_metric {i : QcIssue} {n : Nat} (h : i ∈ qcH2CountIssues n) :
    i.metric = some mH2Count := by
  unfold qcH2CountIssues at h
  split at h <;> simp_all

lemma mem_qcMinH2Issues_metric {i : QcIssue} {L : List (Str × Nat)}
    (h : i ∈ qcMinH2Issues L) : i.metric = some mMinH2 := by
  unfold qcMinH2Issues at h
  simp only at h
  split at h <;> simp_all

lemma mem_qcH3Issues_metric {i : QcIssue} {L : List (Str × Nat)}
    (h : i ∈ qcH3Issues L) : i.metric = some mH3Len := by
  unfold qcH3Issues at h
  simp only [List.mem_flatMap] at h
  obtain ⟨p, _, hp⟩ := h
  split at hp
  · simp_all
  · split at hp <;> simp_all

lemma mem_qcAssertiveIssues_metric {i : QcIssue} {b : Bool}
    (h : i ∈ qcAssertiveIssues b) : i.metric = some mAssertive := by
  unfold qcAssertiveIssues at h
  split at h <;> simp_all

lemma mem_qcOutlineIdIssues_metric {i : QcIssue} {o : List OutlineItem} {md : Str}
    (h : i ∈ qcOutlineIdIssues o md) : i.metric = some mOutlineId := by
  unfold qcOutlineIdIssues at h
  simp only [List.mem_map] at h
  obtain ⟨x, _, hx⟩ := h
  simp [← hx]

lemma mem_qcH3OutlineIssues_metric {i : QcIssue} {o : List OutlineItem} {md : Str}
    (h : i ∈ qcH3OutlineIssues o md) : i.metric = some mOutlineH3Id := by
  unfold qcH3OutlineIssues at h
  simp only [List.mem_map] at h
  obtain ⟨x, _, hx⟩ := h
  simp [← hx]

lemma filterMetric_eq_nil {m m0 : Str} {l : List QcIssue}
    (h : ∀ i ∈ l, i.metric = some m0) (hne : m0 ≠ m) : filterMetric m l = [] := by
  unfold filterMetric
  rw [List.filter_eq_nil_iff]
  intro i hi
  simp only [decide_eq_true_eq]
  intro hm
  exact hne (by injection (h i hi).symm.trans hm)

lemma filterMetric_append (m : Str) (a b : List QcIssue) :
    filterMetric m (a ++ b) = filterMetric m a ++ filterMetric m b := by
  unfold filterMetric
  exact List.filter_append ..

/-- The issues of a report produced by `run_qc`, decomposed into the
seven rule blocks in emission order. -/
lemma run_qc_issues (draft : ArticleDraft) :
    (run_qc draft).issues = qcIssuesOf draft := rfl

lemma filter_eq_nil_of_metric {p : QcIssue → Bool} {m m0 : Str} {l : List QcIssue}
    (hp : ∀ i, p i = true → i.metric = some m) (hl : ∀ i ∈ l, i.metric = some m0)
    (hne : m0 ≠ m) : l.filter p = [] := by
  rw [List.filter_eq_nil_iff]
  intro i hi hcon
  exact hne (by injection (hl i hi).symm.trans (hp i hcon))

/-- Only rule 4 emits issues with metric `h3_length`. -/
lemma filter_qcIssuesOf_h3len (draft : ArticleDraft) {p : QcIssue → Bool}
    (hp : ∀ i, p i = true → i.metric = some mH3Len) :
    (qcIssuesOf draft).filter p =
      (qcH3Issues (extractBodyLengths draft.markdown).2).filter p := by
  unfold qcIssuesOf
  simp only [List.filter_append]
  rw [filter_eq_nil_of_metric hp (fun i h => mem_qcMetaIssues_metric h) (by decide),
    filter_eq_nil_of_metric hp (fun i h => mem_qcH2CountIssues_metric h) (by decide),
    filter_eq_nil_of_metric hp (fun i h => mem_qcMinH2Issues_metric h) (by decide),
    filter_eq_nil_of_metric hp (fun i h => mem_qcAssertiveIssues_metric h) (by decide),
    filter_eq_nil_of_metric hp (fun i h => mem_qcOutlineIdIssues_metric h) (by decide),
    filter_eq_nil_of_metric hp (fun i h => mem_qcH3OutlineIssues_metric h) (by decide)]
  simp

/-- Only rule 1 emits issues with metric `meta_description_length`. -/
lemma filter_qcIssuesOf_meta (draft : ArticleDraft) {p : QcIssue → Bool}
    (hp : ∀ i, p i = true → i.metric = some mMetaDesc) :
    (qcIssuesOf draft).filter p =
      (qcMetaIssues (pyStrip draft.meta_description).length).filter p := by
  unfold qcIssuesOf
  simp only [List.filter_append]
  rw [filter_eq_nil_of_metric hp (fun i h => mem_qcH2CountIssues_metric h) (by decide),
    filter_eq_nil_of_metric hp (fun i h => mem_qcMinH2Issues_metric h) (by decide),
    filter_eq_nil_of_metric hp (fun i h => mem_qcH3Issues_metric h) (by decide),
    filter_eq_nil_of_metric hp (fun i h => mem_qcAssertiveIssues_metric h) (by decide),
    filter_eq_nil_of_metric hp (fun i h => mem_qcOutlineIdIssues_metric h) (by decide),
    filter_eq_nil_of_metric hp (fun i h => mem_qcH3OutlineIssues_metric h) (by decide)]
  simp

/-- Only rule 6 (level 1) emits issues with metric `outline_id`. -/
lemma filter_qcIssuesOf_outlineId (draft : ArticleDraft) {p : QcIssue → Bool}
    (hp : ∀ i, p i = true → i.metric = some mOutlineId) :
    (qcIssuesOf draft).filter p =
      (qcOutlineIdIssues draft.outline draft.markdown).filter p := by
  unfold qcIssuesOf
  simp only [List.filter_append]
  rw [filter_eq_nil_of_metric hp (fun i h => mem_qcMetaIssues_metric h) (by decide),
    filter_eq_nil_of_metric hp (fun i h => mem_qcH2CountIssues_metric h) (by decide),
    filter_eq_nil_of_metric hp (fun i h => mem_qcMinH2Issues_metric h) (by decide),
    filter_eq_nil_of_metric hp (fun i h => mem_qcH3Issues_metric h) (by decide),
    filter_eq_nil_of_metric hp (fun i h => mem_qcAssertiveIssues_metric h) (by decide),
    filter_eq_nil_of_metric hp (fun i h => mem_qcH3OutlineIssues_metric h) (by decide)]
  simp

/-- Only rule 6 (level 2) emits issues with metric `outline_h3_id`. -/
lemma filter_qcIssuesOf_outlineH3Id (draft : ArticleDraft) {p : QcIssue → Bool}
    (hp : ∀ i, p i = true → i.metric = some mOutlineH3Id) :
    (qcIssuesOf draft).filter p =
      (qcH3OutlineIssues draft.outline draft.markdown).filter p := by
  unfold qcIssuesOf
  simp only [List.filter_append]
  rw [filter_eq_nil_of_metric hp (fun i h => mem_qcMetaIssues_metric h) (by decide),
    filter_eq_nil_of_metric hp (fun i h => mem_qcH2CountIssues_metric h) (by decide),
    filter_eq_nil_of_metric hp (fun i h => mem_qcMinH2Issues_metric h) (by decide),
    filter_eq_nil_of_metric hp (fun i h => mem_qcH3Issues_metric h) (by decide),
    filter_eq_nil_of_metric hp (fun i h => mem_qcAssertiveIssues_metric h) (by decide),
    filter_eq_nil_of_metric hp (fun i h => mem_qcOutlineIdIssues_metric h) (by decide)]
  simp

lemma qcH3Issues_filter_hard (L : List (Str × Nat)) :
    (qcH3Issues L).filter
        (fun i => decide (i.metric = some mH3Len) && decide (i.severity = QcSeverity.hard)) =
      (L.filter (fun p => decide (p.2 < 80))).map
        (fun p => { message := msgH3Hard p.2, severity := QcSeverity.hard,
                    target_id := some p.1, metric := some mH3Len }) := by
  induction L with
  | nil => simp [qcH3Issues]
  | cons p t ih =>
      simp only [qcH3Issues, List.flatMap_cons, List.filter_append, List.filter_cons] at *
      by_cases h80 : p.2 < 80
      · simp [h80, ih]
      · by_cases h120 : p.2 < 120 <;> simp [h80, h120, ih]

lemma qcH3Issues_filter_soft (L : List (Str × Nat)) :
    (qcH3Issues L).filter
        (fun i => decide (i.metric = some mH3Len) && decide (i.severity = QcSeverity.soft)) =
      (L.filter (fun p => decide (80 ≤ p.2) && decide (p.2 < 120))).map
        (fun p => { message := msgH3Soft p.2, severity := QcSeverity.soft,
                    target_id := some p.1, metric := some mH3Len }) := by
  induction L with
  | nil => simp [qcH3Issues]
  | cons p t ih =>
      simp only [qcH3Issues, List.flatMap_cons, List.filter_append, List.filter_cons] at *
      by_cases h80 : p.2 < 80
      · have : ¬ 80 ≤ p.2 := by omega
        simp [h80, this, ih]
      · have : 80 ≤ p.2 := by omega
        by_cases h120 : p.2 < 120 <;> simp [h80, h120, this, ih]

lemma qcH3Issues_length (L : List (Str × Nat)) :
    (qcH3Issues L).length = (L.filter (fun p => decide (p.2 < 120))).length := by
  induction L with
  | nil => simp [qcH3Issues]
  | cons p t ih =>
      simp only [qcH3Issues, List.flatMap_cons, List.length_append, List.filter_cons] at *
      by_cases h80 : p.2 < 80
      · have : p.2 < 120 := by omega
        simp [h80, this, ih]
        omega
      · by_cases h120 : p.2 < 120 <;> simp [h80, h120, ih]
        omega

/-- C6: for every draft, each level-2 block found in its markdown yields
exactly one hard `h3_length` issue when its measured body length is below
80, exactly one soft `h3_length` issue when the length is in `[80, 120)`,
and no `h3_length` issue when the length is at least 120; no other rule
contributes issues with this metric. -/
theorem h3_length_rule (draft : ArticleDraft) :
    ((run_qc draft).issues.filter
        (fun i => decide (i.metric = some mH3Len) && decide (i.severity = QcSeverity.hard)) =
      ((extractBodyLengths draft.markdown).2.filter (fun p => decide (p.2 < 80))).map
        (fun p => { message := msgH3Hard p.2, severity := QcSeverity.hard,
                    target_id := some p.1, metric := some mH3Len })) ∧
    ((run_qc draft).issues.filter
        (fun i => decide (i.metric = some mH3Len) && decide (i.severity = QcSeverity.soft)) =
      ((extractBodyLengths draft.markdown).2.filter
          (fun p => decide (80 ≤ p.2) && decide (p.2 < 120))).map
        (fun p => { message := msgH3Soft p.2, severity := QcSeverity.soft,
                    target_id := some p.1, metric := some mH3Len })) ∧
    ((run_qc draft).issues.countP (fun i => decide (i.metric = some mH3Len)) =
      (extractBodyLengths draft.markdown).2.countP (fun p => decide (p.2 < 120))) := by
  refine ⟨?_, ?_, ?_⟩
  · rw [run_qc_issues,
      filter_qcIssuesOf_h3len draft (p := fun i =>
        decide (i.metric = some mH3Len) && decide (i.severity = QcSeverity.hard))
        (by intro i h; simpa using (Bool.and_elim_left h)),
      qcH3Issues_filter_hard]
  · rw [run_qc_issues,
      filter_qcIssuesOf_h3len draft (p := fun i =>
        decide (i.metric = some mH3Len) && decide (i.severity = QcSeverity.soft))
        (by intro i h; simpa using (Bool.and_elim_left h)),
      qcH3Issues_filter_soft]
  · rw [run_qc_issues, List.countP_eq_length_filter, List.countP_eq_length_filter,
      filter_qcIssuesOf_h3len draft (p := fun i => decide (i.metric = some mH3Len))
        (by intro i h; simpa using h)]
    have : (qcH3Issues (extractBodyLengths draft.markdown).2).filter
        (fun i => decide (i.metric = some mH3Len)) =
        qcH3Issues (extractBodyLengths draft.markdown).2 := by
      rw [List.filter_eq_self]
      intro i hi
      simp [mem_qcH3Issues_metric hi]
    rw [this, qcH3Issues_length]

/-- C7 (amended): `run_qc` emits its hard `meta_description_length` issue
exactly when the length of the whitespace-stripped meta description lies
outside `[80, 140]`; the raw (unstripped) length is not what is measured. -/
theorem meta_description_rule (draft : ArticleDraft) :
    filterMetric mMetaDesc (run_qc draft).issues =
      (if 80 ≤ (pyStrip draft.meta_description).length ∧
          (pyStrip draft.meta_description).length ≤ 140 then []
       else [{ message := msgMetaLen (pyStrip draft.meta_description).length,
               severity := QcSeverity.hard, target_id := none,
               metric := some mMetaDesc }]) := by
  rw [run_qc_issues]
  unfold filterMetric
  rw [filter_qcIssuesOf_meta draft (p := fun i => decide (i.metric = some mMetaDesc))
    (by intro i h; simpa using h)]
  unfold qcMetaIssues
  split <;> simp

set_option maxRecDepth 8192 in
/-- C7 counterexample: a draft whose meta description has raw length 141
code points (140 letters plus one trailing space) passes the
`meta_description_length` rule, because the code strips whitespace before
measuring; the claim as stated says length 141 always fails hard. -/
theorem meta_description_rule_cex :
    (List.replicate 140 'a' ++ [' ']).length = 141 ∧
    filterMetric mMetaDesc
      (run_qc { title := [], slug := [],
                meta_description := List.replicate 140 'a' ++ [' '],
                outline := [], markdown := [] }).issues = [] := by
  constructor
  · decide
  · decide

/-! ## `revise` lemmas -/

lemma containsSub_singleton {c : Char} {hay : Str} (h : c ∈ hay) :
    containsSub hay [c] = true := by
  induction hay with
  | nil => cases h
  | cons a t ih =>
      rw [containsSub]
      rcases List.mem_cons.mp h with h1 | h2
      · subst h1
        simp [List.isPrefixOf]
      · split
        · rfl
        · exact ih h2

lemma splitOnCharAux_through (sep : Char) (accRev pre post : Str)
    (hpre : sep ∉ pre) :
    splitOnCharAux sep accRev (pre ++ sep :: post) =
      (accRev.reverse ++ pre) :: splitOnCharAux sep [] post := by
  induction pre generalizing accRev with
  | nil => simp [splitOnCharAux]
  | cons c t ih =>
      have hc : c ≠ sep := fun h => hpre (h ▸ List.mem_cons_self c t)
      have ht : sep ∉ t := fun h => hpre (List.mem_cons_of_mem c h)
      simp only [List.cons_append, splitOnCharAux, List.append_eq, if_neg (fun h => hc h)]
      rw [ih _ ht]
      simp

lemma splitOnChar_h3_shape (k j : Str) (hk : '-' ∉ k) :
    splitOnChar '-' (str "h3-" ++ k ++ ['-'] ++ j) =
      str "h3" :: k :: splitOnChar '-' j := by
  unfold splitOnChar
  have h1 : str "h3-" ++ k ++ ['-'] ++ j = (str "h3") ++ '-' :: (k ++ '-' :: j) := by
    simp [str]
  rw [h1, splitOnCharAux_through '-' [] (str "h3") (k ++ '-' :: j) (by decide)]
  rw [splitOnCharAux_through '-' [] k j hk]
  simp

lemma not_h3_prefix_of_h2 (p : Str) :
    (str "h3-").isPrefixOf (str "h2-" ++ p) = false := by
  simp [str, List.isPrefixOf]

/-- The per-issue regeneration contribution of a well-formed level-2
issue is exactly its parent level-1 identifier. -/
lemma issueRegen_level2 (i : QcIssue) (k j : Str)
    (hm : i.metric = some mH3Len ∨ i.metric = some mOutlineH3Id)
    (ht : i.target_id = some (str "h3-" ++ k ++ ['-'] ++ j))
    (hk : k ≠ []) (hkd : '-' ∉ k) :
    issueRegen i = [str "h2-" ++ k] := by
  have hma : ¬ (i.metric = some mMinH2 ∨ i.metric = some mOutlineId) := by
    rcases hm with hm | hm <;> rw [hm] <;> rintro (h | h) <;> exact absurd h (by decide)
  have hdash : containsSub (str "h3-" ++ k ++ ['-'] ++ j) ['-'] = true :=
    containsSub_singleton (by simp)
  have hne : str "h3-" ++ k ++ ['-'] ++ j ≠ [] := by simp [str]
  simp only [issueRegen, ht, eq_false hma, false_and, if_false, eq_true hm,
    eq_true hne, true_and, if_true, hdash, splitOnChar_h3_shape k j hkd,
    List.getD, List.nil_append]
  simp [hk]

/-- C4: `revise` copies every issue message, verbatim and in order, into
`reasons`; a level-2 issue (metrics `h3_length` / `outline_h3_id`) with a
well-formed target `h3-k-…` contributes exactly the parent identifier
`h2-k` to `sections_to_regenerate` (and that parent is a member of the
returned list); provided the level-1 metrics carry level-1 targets, no
entry of `sections_to_regenerate` is a standalone sub-heading identifier. -/
theorem revise_rule (draft : ArticleDraft) (report : QcReport) :
    ((revise draft report).reasons = report.issues.map (fun i => i.message)) ∧
    ((revise draft report).sections_to_regenerate = report.issues.flatMap issueRegen) ∧
    (∀ i ∈ report.issues, ∀ k j : Str,
      (i.metric = some mH3Len ∨ i.metric = some mOutlineH3Id) →
      i.target_id = some (str "h3-" ++ k ++ ['-'] ++ j) → k ≠ [] → '-' ∉ k →
        issueRegen i = [str "h2-" ++ k] ∧
        str "h2-" ++ k ∈ (revise draft report).sections_to_regenerate) ∧
    ((∀ i ∈ report.issues, ∀ t : Str,
        (i.metric = some mMinH2 ∨ i.metric = some mOutlineId) →
        i.target_id = some t → (str "h3-").isPrefixOf t = false) →
      ∀ s ∈ (revise draft report).sections_to_regenerate,
        (str "h3-").isPrefixOf s = false) := by
  refine ⟨rfl, rfl, ?_, ?_⟩
  · intro i hi k j hm ht hk hkd
    refine ⟨issueRegen_level2 i k j hm ht hk hkd, ?_⟩
    show _ ∈ report.issues.flatMap issueRegen
    rw [List.mem_flatMap]
    exact ⟨i, hi, by rw [issueRegen_level2 i k j hm ht hk hkd]; simp⟩
  · intro hlv1 s hs
    rw [show (revise draft report).sections_to_regenerate =
      report.issues.flatMap issueRegen from rfl, List.mem_flatMap] at hs
    obtain ⟨i, hi, hsi⟩ := hs
    unfold issueRegen at hsi
    rcases List.mem_append.mp hsi with ha | hb
    · revert ha
      split
      · split
        · rename_i t hta hcond
          intro ha
          rcases List.mem_singleton.mp ha with rfl
          exact hlv1 i hi s hcond.1 hta
        · intro ha; cases ha
      · intro ha; cases ha
    · revert hb
      split
      · split
        · split
          · rename_i t hta hcond hdash
            simp only []
            split
            · intro hb
              rcases List.mem_singleton.mp hb with rfl
              exact not_h3_prefix_of_h2 _
            · intro hb; cases hb
          · intro hb; cases hb
        · intro hb; cases hb
      · intro hb; cases hb

/-! ## Structural-completeness (outline id) lemmas -/

lemma foldl_dedup_nodup (l : List Str) : ∀ acc : List Str, acc.Nodup →
    (List.foldl (fun a x => if x ∈ a then a else a ++ [x]) acc l).Nodup := by
  induction l with
  | nil => intro acc h; simpa using h
  | cons x t ih =>
      intro acc h
      simp only [List.foldl_cons]
      by_cases hx : x ∈ acc
      · rw [if_pos hx]; exact ih acc h
      · rw [if_neg hx]
        exact ih _ (by simp [List.nodup_append, h, hx])

lemma foldl_dedup_mem (l : List Str) : ∀ (acc : List Str) (x : Str),
    (x ∈ List.foldl (fun a y => if y ∈ a then a else a ++ [y]) acc l ↔ x ∈ acc ∨ x ∈ l) := by
  induction l with
  | nil => intro acc x; simp
  | cons y t ih =>
      intro acc x
      simp only [List.foldl_cons]
      by_cases hy : y ∈ acc
      · rw [if_pos hy, ih]
        constructor
        · rintro (h | h)
          · exact Or.inl h
          · exact Or.inr (List.mem_cons_of_mem _ h)
        · rintro (h | h)
          · exact Or.inl h
          · rcases List.mem_cons.mp h with rfl | h
            · exact Or.inl hy
            · exact Or.inr h
      · rw [if_neg hy, ih]
        simp only [List.mem_append, List.mem_singleton, List.mem_cons]
        tauto

lemma pySetList_nodup (l : List Str) : (pySetList l).Nodup :=
  foldl_dedup_nodup l [] List.nodup_nil

lemma pySetList_mem {l : List Str} {x : Str} : x ∈ pySetList l ↔ x ∈ l := by
  unfold pySetList
  rw [foldl_dedup_mem]
  simp

lemma countP_decide_eq_of_nodup :
    ∀ {l : List Str}, l.Nodup → ∀ x : Str,
      l.countP (fun y => decide (y = x)) = if x ∈ l then 1 else 0 := by
  intro l
  induction l with
  | nil => intro _ x; simp
  | cons a t ih =>
      intro hnd x
      rcases List.nodup_cons.mp hnd with ⟨ha, ht⟩
      rw [List.countP_cons, ih ht x]
      by_cases hax : x = a
      · subst hax
        have hxt : x ∉ t := ha
        simp [hxt]
      · have hax2 : a ≠ x := fun h => hax h.symm
        simp [List.mem_cons, hax, hax2]

/-- Per-target count inside the level-1 structural block. -/
lemma countP_qcOutlineIdIssues (o : List OutlineItem) (md : Str) (oid : Str) :
    (qcOutlineIdIssues o md).countP (fun i => decide (i.target_id = some oid)) =
      if oid ∈ o.map (fun x => x.id) ∧ containsSub md (str "id:" ++ oid) = false
      then 1 else 0 := by
  unfold qcOutlineIdIssues
  rw [List.countP_map]
  have hcong : (List.filter (fun oid0 => !containsSub md (str "id:" ++ oid0))
      (pySetList (o.map (fun x => x.id)))).countP
      ((fun i => decide (i.target_id = some oid)) ∘ (fun oid0 =>
        ({ message := msgMissingH2 oid0, severity := QcSeverity.hard,
           target_id := some oid0, metric := some mOutlineId } : QcIssue))) =
      (List.filter (fun oid0 => !containsSub md (str "id:" ++ oid0))
      (pySetList (o.map (fun x => x.id)))).countP (fun y => decide (y = oid)) :=
    List.countP_congr (fun x _ => by simp)
  rw [hcong, countP_decide_eq_of_nodup ((pySetList_nodup _).filter _)]
  by_cases hmem : oid ∈ List.filter (fun oid0 => !containsSub md (str "id:" ++ oid0))
      (pySetList (o.map (fun x => x.id)))
  · rw [if_pos hmem, if_pos]
    rcases List.mem_filter.mp hmem with ⟨h1, h2⟩
    exact ⟨pySetList_mem.mp h1, by simpa using h2⟩
  · rw [if_neg hmem, if_neg]
    intro ⟨h1, h2⟩
    exact hmem (List.mem_filter.mpr ⟨pySetList_mem.mpr h1, by simpa using h2⟩)

/-- Per-target count inside the level-2 structural block. -/
lemma countP_qcH3OutlineIssues (o : List OutlineItem) (md : Str) (hid : Str) :
    (qcH3OutlineIssues o md).countP (fun i => decide (i.target_id = some hid)) =
      if hid ∈ (o.flatMap (fun x => x.h3)).map (fun x => x.id) ∧
          containsSub md (str "id:" ++ hid) = false
      then 1 else 0 := by
  unfold qcH3OutlineIssues
  rw [List.countP_map]
  have hcong : (List.filter (fun h0 => !containsSub md (str "id:" ++ h0))
      (pySetList ((o.flatMap (fun x => x.h3)).map (fun x => x.id)))).countP
      ((fun i => decide (i.target_id = some hid)) ∘ (fun h0 =>
        ({ message := msgMissingH3 h0, severity := QcSeverity.hard,
           target_id := some h0, metric := some mOutlineH3Id } : QcIssue))) =
      (List.filter (fun h0 => !containsSub md (str "id:" ++ h0))
      (pySetList ((o.flatMap (fun x => x.h3)).map (fun x => x.id)))).countP
        (fun y => decide (y = hid)) :=
    List.countP_congr (fun x _ => by simp)
  rw [hcong, countP_decide_eq_of_nodup ((pySetList_nodup _).filter _)]
  by_cases hmem : hid ∈ List.filter (fun h0 => !containsSub md (str "id:" ++ h0))
      (pySetList ((o.flatMap (fun x => x.h3)).map (fun x => x.id)))
  · rw [if_pos hmem, if_pos]
    rcases List.mem_filter.mp hmem with ⟨h1, h2⟩
    exact ⟨pySetList_mem.mp h1, by simpa using h2⟩
  · rw [if_neg hmem, if_neg]
    intro ⟨h1, h2⟩
    exact hmem (List.mem_filter.mpr ⟨pySetList_mem.mpr h1, by simpa using h2⟩)

lemma mem_qcOutlineIdIssues_hard {i : QcIssue} {o : List OutlineItem} {md : Str}
    (h : i ∈ qcOutlineIdIssues o md) : i.severity = QcSeverity.hard := by
  unfold qcOutlineIdIssues at h
  simp only [List.mem_map] at h
  obtain ⟨x, _, hx⟩ := h
  simp [← hx]

lemma mem_qcH3OutlineIssues_hard {i : QcIssue} {o : List OutlineItem} {md : Str}
    (h : i ∈ qcH3OutlineIssues o md) : i.severity = QcSeverity.hard := by
  unfold qcH3OutlineIssues at h
  simp only [List.mem_map] at h
  obtain ⟨x, _, hx⟩ := h
  simp [← hx]

/-- C5 (amended): every issue of the two structural-completeness rules is
hard; for every identifier, the number of `outline_id` issues targeting
it is 1 exactly when it is declared at level 1 and the string
`"id:" ++ oid` does not occur as a substring of the markdown, else 0; and
likewise for `outline_h3_id` over the declared level-2 identifiers.
Presence is substring-based, so a declared identifier that is a prefix of
another embedded identifier counts as present and yields no issue. -/
theorem outline_id_rule (draft : ArticleDraft) :
    (∀ i ∈ (run_qc draft).issues,
      (i.metric = some mOutlineId ∨ i.metric = some mOutlineH3Id) →
        i.severity = QcSeverity.hard) ∧
    (∀ oid : Str,
      (run_qc draft).issues.countP
          (fun i => decide (i.metric = some mOutlineId) &&
            decide (i.target_id = some oid)) =
        if oid ∈ draft.outline.map (fun x => x.id) ∧
            containsSub draft.markdown (str "id:" ++ oid) = false then 1 else 0) ∧
    (∀ hid : Str,
      (run_qc draft).issues.countP
          (fun i => decide (i.metric = some mOutlineH3Id) &&
            decide (i.target_id = some hid)) =
        if hid ∈ (draft.outline.flatMap (fun x => x.h3)).map (fun x => x.id) ∧
            containsSub draft.markdown (str "id:" ++ hid) = false then 1 else 0) := by
  refine ⟨?_, ?_, ?_⟩
  · intro i hi hm
    rw [run_qc_issues] at hi
    unfold qcIssuesOf at hi
    simp only [List.mem_append] at hi
    rcases hi with ((((((hb | hb) | hb) | hb) | hb) | hb) | hb)
    · have := mem_qcMetaIssues_metric hb
      rcases hm with hm | hm <;> rw [this] at hm <;> exact absurd hm (by decide)
    · have := mem_qcH2CountIssues_metric hb
      rcases hm with hm | hm <;> rw [this] at hm <;> exact absurd hm (by decide)
    · have := mem_qcMinH2Issues_metric hb
      rcases hm with hm | hm <;> rw [this] at hm <;> exact absurd hm (by decide)
    · have := mem_qcH3Issues_metric hb
      rcases hm with hm | hm <;> rw [this] at hm <;> exact absurd hm (by decide)
    · have := mem_qcAssertiveIssues_metric hb
      rcases hm with hm | hm <;> rw [this] at hm <;> exact absurd hm (by decide)
    · exact mem_qcOutlineIdIssues_hard hb
    · exact mem_qcH3OutlineIssues_hard hb
  · intro oid
    rw [run_qc_issues, List.countP_eq_length_filter,
      filter_qcIssuesOf_outlineId draft (p := fun i =>
          decide (i.metric = some mOutlineId) && decide (i.target_id = some oid))
        (by intro i h; simpa using (Bool.and_elim_left h)),
      ← List.countP_eq_length_filter]
    rw [List.countP_congr (fun i hi => by
      simp [mem_qcOutlineIdIssues_metric hi] :
      ∀ i ∈ qcOutlineIdIssues draft.outline draft.markdown,
        ((decide (i.metric = some mOutlineId) && decide (i.target_id = some oid)) = true ↔
          decide (i.target_id = some oid) = true))]
    exact countP_qcOutlineIdIssues draft.outline draft.markdown oid
  · intro hid
    rw [run_qc_issues, List.countP_eq_length_filter,
      filter_qcIssuesOf_outlineH3Id draft (p := fun i =>
          decide (i.metric = some mOutlineH3Id) && decide (i.target_id = some hid))
        (by intro i h; simpa using (Bool.and_elim_left h)),
      ← List.countP_eq_length_filter]
    rw [List.countP_congr (fun i hi => by
      simp [mem_qcH3OutlineIssues_metric hi] :
      ∀ i ∈ qcH3OutlineIssues draft.outline draft.markdown,
        ((decide (i.metric = some mOutlineH3Id) && decide (i.target_id = some hid)) = true ↔
          decide (i.target_id = some hid) = true))]
    exact countP_qcH3OutlineIssues draft.outline draft.markdown hid

/-- C5 counterexample: the plan declares the distinct identifiers `h2-3`
and `h2-31`; the markdown embeds only `h2-31` (no `<!-- id:h2-3 -->`
comment is present), yet `run_qc` emits no `outline_id` issue at all,
because the membership test is the plain substring search for
`"id:h2-3"`, which occurs inside `"id:h2-31"`.  The claim as stated
predicts exactly one hard `outline_id` issue targeting `h2-3`. -/
theorem outline_id_rule_cex :
    (draftPrefixId.outline.map (fun x => x.id)).Nodup ∧
    containsSub draftPrefixId.markdown (str "<!-- id:h2-3 -->") = false ∧
    containsSub draftPrefixId.markdown (str "<!-- id:h2-31 -->") = true ∧
    (run_qc draftPrefixId).issues.countP
      (fun i => decide (i.metric = some mOutlineId)) = 0 := by
  exact ⟨by decide, by decide, by decide, by decide⟩

/-! ## Assembly-semantics lemmas -/

lemma find?_map_replace_ne {key k : Str} {v : SectionDraft}
    (hne : k ≠ key) (t : List (Str × SectionDraft)) :
    (t.map (fun p => if p.1 = key then (key, v) else p)).find?
        (fun p => decide (p.1 = k)) =
      t.find? (fun p => decide (p.1 = k)) := by
  have hkey : ¬ (key = k) := fun h => hne h.symm
  induction t with
  | nil => rfl
  | cons a t ih =>
      by_cases ha : a.1 = key
      · rw [List.map_cons, if_pos ha,
          List.find?_cons_of_neg _ (by simpa using hkey),
          List.find?_cons_of_neg _ (by simp [ha, hkey]), ih]
      · rw [List.map_cons, if_neg ha]
        by_cases hak : a.1 = k
        · rw [List.find?_cons_of_pos _ (by simpa using hak),
            List.find?_cons_of_pos _ (by simpa using hak)]
        · rw [List.find?_cons_of_neg _ (by simpa using hak),
            List.find?_cons_of_neg _ (by simpa using hak), ih]

lemma dictGet_map_replace {m : List (Str × SectionDraft)} {key k : Str}
    {v : SectionDraft}
    (hmem : (m.find? (fun p => decide (p.1 = key))).isSome = true) :
    dictGet (m.map (fun p => if p.1 = key then (key, v) else p)) k =
      if k = key then some v else dictGet m k := by
  induction m with
  | nil => simp at hmem
  | cons a t ih =>
      by_cases ha : a.1 = key
      · by_cases hk : k = key
        · subst hk
          unfold dictGet
          rw [List.map_cons, if_pos ha, List.find?_cons_of_pos _ (by simp)]
          simp
        · have hkey : ¬ (key = k) := fun h => hk h.symm
          unfold dictGet
          rw [List.map_cons, if_pos ha,
            List.find?_cons_of_neg _ (by simpa using hkey),
            List.find?_cons_of_neg _ (by simp [ha, hkey]),
            find?_map_replace_ne hk, if_neg hk]
      · have hmem2 : (t.find? (fun p => decide (p.1 = key))).isSome = true := by
          rwa [List.find?_cons_of_neg _ (by simpa using ha)] at hmem
        by_cases hak : a.1 = k
        · have hk : ¬ k = key := fun h => ha (hak.trans h)
          unfold dictGet
          rw [List.map_cons, if_neg ha,
            List.find?_cons_of_pos _ (by simpa using hak),
            List.find?_cons_of_pos _ (by simpa using hak), if_neg hk]
        · unfold dictGet
          rw [List.map_cons, if_neg ha,
            List.find?_cons_of_neg _ (by simpa using hak),
            List.find?_cons_of_neg _ (by simpa using hak)]
          exact ih hmem2

lemma dictGet_dictSet (m : List (Str × SectionDraft)) (key k : Str) (v : SectionDraft) :
    dictGet (dictSet m key v) k = if k = key then some v else dictGet m k := by
  unfold dictSet
  by_cases hp : (m.find? (fun p => decide (p.1 = key))).isSome = true
  · rw [if_pos hp]
    exact dictGet_map_replace hp
  · rw [if_neg hp]
    unfold dictGet
    rw [List.find?_append]
    by_cases hk : k = key
    · subst hk
      have hnone : m.find? (fun p => decide (p.1 = k)) = none := by
        cases h : m.find? (fun p => decide (p.1 = k))
        · rfl
        · exact absurd (by rw [h]; rfl) hp
      rw [hnone, List.find?_cons_of_pos _ (by simp), if_pos rfl]
      rfl
    · have hkey : ¬ (key = k) := fun h => hk h.symm
      rw [show ([((key, v) : Str × SectionDraft)].find?
            (fun p => decide (p.1 = k))) = none by
          rw [List.find?_cons_of_neg _ (by simpa using hkey)]; rfl,
        if_neg hk]
      cases h : m.find? (fun p => decide (p.1 = k)) <;> simp [h, Option.or]

lemma pyDict_foldl_lookup (sections : List SectionDraft) :
    ∀ (m : List (Str × SectionDraft)) (k : Str),
      dictGet (sections.foldl (fun m s => dictSet m s.h2_id s) m) k =
        (sections.reverse.find? (fun s => decide (s.h2_id = k))).or (dictGet m k) := by
  induction sections with
  | nil => intro m k; simp
  | cons s t ih =>
      intro m k
      rw [List.foldl_cons, ih, List.reverse_cons, List.find?_append, dictGet_dictSet]
      by_cases hk : k = s.h2_id
      · rw [if_pos hk,
          show ([s].find? (fun x => decide (x.h2_id = k))) = some s from
            List.find?_cons_of_pos _ (by simp [hk.symm])]
        cases h : t.reverse.find? (fun x => decide (x.h2_id = k)) <;> simp [Option.or]
      · rw [if_neg hk,
          show ([s].find? (fun x => decide (x.h2_id = k))) = none by
            rw [List.find?_cons_of_neg _ (by simp; exact fun h => hk h.symm)]; rfl]
        cases h : t.reverse.find? (fun x => decide (x.h2_id = k)) <;> simp [Option.or]

/-- The Python dict lookup used by `assemble_markdown` returns the last
section carrying a given id. -/
lemma pyDict_lookup (sections : List SectionDraft) (k : Str) :
    dictGet (pyDict sections) k =
      sections.reverse.find? (fun s => decide (s.h2_id = k)) := by
  unfold pyDict
  rw [pyDict_foldl_lookup]
  cases h : sections.reverse.find? (fun s => decide (s.h2_id = k)) <;>
    simp [Option.or, dictGet]

lemma find?_filter_of_imp {p q : SectionDraft → Bool} (l : List SectionDraft)
    (himp : ∀ x, p x = true → q x = true) :
    (l.filter q).find? p = l.find? p := by
  induction l with
  | nil => rfl
  | cons a t ih =>
      by_cases hq : q a = true
      · rw [List.filter_cons_of_pos hq, List.find?_cons, List.find?_cons]
        cases hp : p a <;> simp [hp, ih]
      · have hp : p a = false := by
          cases hpa : p a
          · rfl
          · exact absurd (himp a hpa) hq
        rw [List.filter_cons_of_neg (by simp [hq]), List.find?_cons, hp]
        exact ih

/-- C10: `assemble_markdown` renders, for each outline item in plan
order, the last passed section whose `h2_id` equals the item id (if
any); consequently sections whose id matches no outline item are
silently omitted, and of several sections sharing an id only the last
one is rendered. -/
theorem assemble_markdown_semantics (plan : ArticlePlan) (sections : List SectionDraft) :
    (assemble_markdown plan sections =
      pyStrip (joinNL (plan.outline.filterMap (fun item =>
        (sections.reverse.find? (fun s => decide (s.h2_id = item.id))).map
          renderSectionMarkdown))) ++ ['\n']) ∧
    (assemble_markdown plan sections =
      assemble_markdown plan
        (sections.filter
          (fun s => decide (s.h2_id ∈ plan.outline.map (fun x => x.id))))) := by
  have hmain : ∀ secs : List SectionDraft,
      assemble_markdown plan secs =
        pyStrip (joinNL (plan.outline.filterMap (fun item =>
          (secs.reverse.find? (fun s => decide (s.h2_id = item.id))).map
            renderSectionMarkdown))) ++ ['\n'] := by
    intro secs
    exact congrArg (fun z => pyStrip (joinNL z) ++ ['\n'])
      (List.filterMap_congr (fun item _ => by rw [pyDict_lookup]))
  refine ⟨hmain sections, ?_⟩
  rw [hmain sections, hmain (sections.filter _)]
  refine congrArg (fun z => pyStrip (joinNL z) ++ ['\n'])
    (List.filterMap_congr (fun item hitem => ?_))
  rw [← List.filter_reverse, find?_filter_of_imp]
  intro x hx
  simp only [decide_eq_true_eq] at hx ⊢
  rw [hx]
  exact List.mem_map.mpr ⟨item, hitem, rfl⟩

/-- Witness for C4: a soft `h3_length` issue targeting `h3-2-1` makes
`revise` regenerate exactly the parent section `h2-2`. -/
theorem revise_rule_witness :
    str "h2-" ++ ['2'] ∈ (revise emptyDraft reportH3Issue).sections_to_regenerate := by
  have h := revise_rule emptyDraft reportH3Issue
  exact (h.2.2.1 issueH3W
    (by simp [reportH3Issue]) ['2'] ['1'] (Or.inl rfl) (by decide) (by decide)
    (by decide)).2

/-! ## Round-trip: string-level lemmas -/

lemma joinNL_cons_of_ne (a : Str) {l : List Str} (h : l ≠ []) :
    joinNL (a :: l) = a ++ '\n' :: joinNL l := by
  cases l with
  | nil => exact absurd rfl h
  | cons b t => rfl

lemma joinNL_append_cons (A : List Str) (x : Str) (B : List Str) (hA : A ≠ []) :
    joinNL (A ++ x :: B) = joinNL A ++ '\n' :: joinNL (x :: B) := by
  induction A with
  | nil => exact absurd rfl hA
  | cons a A ih =>
      cases A with
      | nil => simp [joinNL_cons_of_ne a (l := x :: B) (by simp), joinNL]
      | cons a2 A2 =>
          rw [List.cons_append,
            joinNL_cons_of_ne a (l := (a2 :: A2) ++ x :: B) (by simp),
            ih (by simp), joinNL_cons_of_ne a (l := a2 :: A2) (by simp)]
          simp

lemma joinNL_eq_nil {y : Str} {t : List Str} (h : joinNL (y :: t) = []) :
    y = [] ∧ t = [] := by
  cases t with
  | nil => exact ⟨h, rfl⟩
  | cons z t2 =>
      rw [joinNL_cons_of_ne y (by simp)] at h
      rcases List.append_eq_nil.mp h with ⟨_, h2⟩
      cases h2

lemma joinNL_head? (l : Str) (ls : List Str) (hl : l ≠ []) :
    (joinNL (l :: ls)).head? = l.head? := by
  cases ls with
  | nil => rfl
  | cons b t =>
      rw [joinNL_cons_of_ne l (by simp), List.head?_append]
      cases l with
      | nil => exact absurd rfl hl
      | cons c ct => rfl

lemma joinNL_getLast? : ∀ (ls : List Str) (last : Str),
    ls.getLast? = some last → last ≠ [] →
    (joinNL ls).getLast? = last.getLast? := by
  intro ls
  induction ls with
  | nil => intro last h _; cases h
  | cons x t ih =>
      intro last hl hne
      cases t with
      | nil =>
          simp only [List.getLast?_singleton, Option.some.injEq] at hl
          subst hl
          rfl
      | cons y t2 =>
          rw [List.getLast?_cons_cons] at hl
          rw [joinNL_cons_of_ne x (by simp), List.getLast?_append]
          have hJ : joinNL (y :: t2) ≠ [] := by
            intro hnil
            rcases joinNL_eq_nil hnil with ⟨hy, ht2⟩
            subst hy; subst ht2
            simp at hl
            exact hne hl
          have : ('\n' :: joinNL (y :: t2)).getLast? = (joinNL (y :: t2)).getLast? := by
            cases hJ2 : joinNL (y :: t2) with
            | nil => exact absurd hJ2 hJ
            | cons c ct => rw [List.getLast?_cons_cons]
          rw [this, ih last hl hne]
          cases hG : last.getLast? with
          | none =>
              cases last with
              | nil => exact absurd rfl hne
              | cons c ct => rw [List.getLast?_eq_none_iff] at hG; cases hG
          | some c => rfl

lemma dropWhile_all_append {p : Char → Bool} {a : Str} (b : Str)
    (h : ∀ x ∈ a, p x = true) :
    List.dropWhile p (a ++ b) = List.dropWhile p b := by
  induction a with
  | nil => rfl
  | cons c t ih =>
      rw [List.cons_append, List.dropWhile_cons,
        if_pos (h c (List.mem_cons_self c t))]
      exact ih (fun x hx => h x (List.mem_cons_of_mem c hx))

lemma dropWhile_append_of_cons {p : Char → Bool} {a : Str} {z : Char} {t : Str}
    (B : Str) (h : List.dropWhile p a = z :: t) :
    List.dropWhile p (a ++ B) = z :: t ++ B := by
  induction a with
  | nil => cases h
  | cons c a2 ih =>
      rw [List.dropWhile_cons] at h
      by_cases hc : p c = true
      · rw [if_pos hc] at h
        rw [List.cons_append, List.dropWhile_cons, if_pos hc]
        exact ih h
      · rw [if_neg hc] at h
        injection h with h1 h2
        subst h1
        rw [List.cons_append, List.dropWhile_cons, if_neg hc, h2]
        rfl

lemma pyStrip_append_space (Y : Str) {c : Char} (hc : pyIsSpace c = true) :
    pyStrip (Y ++ [c]) = pyStrip Y := by
  unfold pyStrip
  cases h : List.dropWhile pyIsSpace Y with
  | nil =>
      have hall : ∀ x ∈ Y, pyIsSpace x = true := List.dropWhile_eq_nil_iff.mp h
      rw [dropWhile_all_append [c] hall]
      simp [List.dropWhile_cons, hc]
  | cons z t =>
      rw [dropWhile_append_of_cons [c] h]
      have : (z :: t ++ [c]).reverse = c :: (z :: t).reverse := by simp
      rw [this, List.dropWhile_cons, if_pos hc]

lemma pyStrip_eq_self {Y : Str}
    (hh : ∀ c, Y.head? = some c → pyIsSpace c = false)
    (hl : ∀ c, Y.getLast? = some c → pyIsSpace c = false) :
    pyStrip Y = Y := by
  cases Y with
  | nil => rfl
  | cons c0 t =>
      unfold pyStrip
      rw [List.dropWhile_cons, if_neg (by rw [hh c0 rfl]; simp)]
      cases hr : (c0 :: t).reverse with
      | nil => rw [List.reverse_eq_nil_iff] at hr; cases hr
      | cons d r =>
          have hd : (c0 :: t).getLast? = some d := by
            rw [← List.head?_reverse, hr]; rfl
          rw [List.dropWhile_cons]
          rw [if_neg (show ¬ pyIsSpace d = true by rw [hl d hd]; simp)]
          rw [← hr, List.reverse_reverse]

lemma goodBody_strip {b : Str} (h : goodBody b) : pyStrip b = b :=
  pyStrip_eq_self h.2.2.1 h.2.2.2.1

lemma splitlinesAux_line (l : Str) (hl : ∀ c ∈ l, pyIsLineBreak c = false) :
    ∀ (accRev rest : Str),
      splitlinesAux accRev (l ++ '\n' :: rest) =
        (accRev.reverse ++ l) :: splitlinesAux [] rest := by
  induction l with
  | nil =>
      intro accRev rest
      cases rest with
      | nil =>
          simp [splitlinesAux]
          decide
      | cons r rs =>
          show splitlinesAux accRev ('\n' :: r :: rs) = _
          rw [splitlinesAux]
          rw [if_neg (by simp), if_pos (by decide)]
          simp
  | cons c t ih =>
      intro accRev rest
      have hc : pyIsLineBreak c = false := hl c (List.mem_cons_self c t)
      have hcr : ¬ (c = '\r') := fun h => by
        subst h
        exact absurd hc (by decide)
      have ht : ∀ x ∈ t, pyIsLineBreak x = false :=
        fun x hx => hl x (List.mem_cons_of_mem c hx)
      show splitlinesAux accRev (c :: (t ++ '\n' :: rest)) = _
      cases he : t ++ '\n' :: rest with
      | nil => cases t <;> cases he
      | cons d t2 =>
          rw [splitlinesAux]
          rw [if_neg (fun hand => hcr hand.1), if_neg (by simp [hc])]
          rw [← he, ih ht (c :: accRev) rest]
          simp

lemma pySplitlines_joinNL (ls : List Str)
    (h : ∀ l ∈ ls, ∀ c ∈ l, pyIsLineBreak c = false) (hne : ls ≠ []) :
    pySplitlines (joinNL ls ++ ['\n']) = ls := by
  induction ls with
  | nil => exact absurd rfl hne
  | cons l t ih =>
      cases t with
      | nil =>
          show splitlinesAux [] (l ++ '\n' :: []) = [l]
          rw [splitlinesAux_line l (h l (List.mem_cons_self l [])) [] []]
          simp [splitlinesAux]
      | cons l2 t2 =>
          have hJ : joinNL (l :: l2 :: t2) ++ ['\n'] =
              l ++ '\n' :: (joinNL (l2 :: t2) ++ ['\n']) := by
            rw [joinNL_cons_of_ne l (by simp)]
            simp
          show splitlinesAux [] _ = _
          rw [hJ, splitlinesAux_line l (h l (List.mem_cons_self l _)) []]
          have := ih (fun x hx => h x (List.mem_cons_of_mem l hx)) (by simp)
          rw [show pySplitlines (joinNL (l2 :: t2) ++ ['\n']) =
            splitlinesAux [] (joinNL (l2 :: t2) ++ ['\n']) from rfl] at this
          rw [this]
          simp

lemma render_eq_blockLines (s : SectionDraft) :
    renderSectionMarkdown s = joinNL (blockLines s) ++ ['\n'] := rfl

lemma blockLines_ne_nil (s : SectionDraft) : blockLines s ≠ [] := by
  simp [blockLines]

lemma docLines_cons_cons (s s2 : SectionDraft) (t : List SectionDraft) :
    docLines (s :: s2 :: t) = blockLines s ++ [] :: docLines (s2 :: t) := by
  simp [docLines]

lemma joinNL_map_render (secs : List SectionDraft) (hne : secs ≠ []) :
    joinNL (secs.map renderSectionMarkdown) = joinNL (docLines secs) ++ ['\n'] := by
  induction secs with
  | nil => exact absurd rfl hne
  | cons s t ih =>
      cases t with
      | nil =>
          show joinNL [renderSectionMarkdown s] = _
          rw [show joinNL [renderSectionMarkdown s] = renderSectionMarkdown s from rfl,
            render_eq_blockLines]
          simp [docLines]
      | cons s2 t2 =>
          rw [List.map_cons,
            joinNL_cons_of_ne (renderSectionMarkdown s) (by simp),
            ih (by simp), render_eq_blockLines, docLines_cons_cons,
            joinNL_append_cons (blockLines s) [] (docLines (s2 :: t2))
              (blockLines_ne_nil s),
            joinNL_cons_of_ne ([] : Str)
              (by cases t2 <;> simp [docLines, blockLines])]
          simp

lemma dict_pairing {α : Type} (f : SectionDraft → α) :
    ∀ (outline : List OutlineItem) (sections : List SectionDraft),
      sections.map (fun s => s.h2_id) = outline.map (fun x => x.id) →
      (outline.map (fun x => x.id)).Nodup →
      outline.filterMap
          (fun item => (dictGet (pyDict sections) item.id).map f) =
        sections.map f := by
  intro outline
  induction outline with
  | nil =>
      intro sections hm _
      have : sections = [] := by
        cases sections with
        | nil => rfl
        | cons a b => cases hm
      subst this
      rfl
  | cons item rest ih =>
      intro sections hm hnd
      cases sections with
      | nil => cases hm
      | cons s st =>
          simp only [List.map_cons, List.cons.injEq] at hm
          obtain ⟨hs, hst⟩ := hm
          rw [List.map_cons, List.nodup_cons] at hnd
          obtain ⟨hnotin, hnd2⟩ := hnd
          have hhead : dictGet (pyDict (s :: st)) item.id = some s := by
            rw [pyDict_lookup, List.reverse_cons, List.find?_append]
            have h1 : st.reverse.find? (fun x => decide (x.h2_id = item.id)) = none := by
              rw [List.find?_eq_none]
              intro x hx
              simp only [decide_eq_true_eq]
              intro hcon
              exact hnotin (by
                rw [← hst]
                exact List.mem_map.mpr ⟨x, List.mem_reverse.mp hx, hcon⟩)
            rw [h1, List.find?_cons_of_pos _ (by simp [hs])]
            rfl
          have htail : ∀ item2 ∈ rest,
              dictGet (pyDict (s :: st)) item2.id = dictGet (pyDict st) item2.id := by
            intro item2 h2
            rw [pyDict_lookup, pyDict_lookup, List.reverse_cons, List.find?_append]
            have hne2 : s.h2_id ≠ item2.id := by
              rw [hs]
              intro hcon
              exact hnotin (hcon ▸ List.mem_map.mpr ⟨item2, h2, rfl⟩)
            rw [show ([s].find? (fun x => decide (x.h2_id = item2.id))) = none by
              rw [List.find?_cons_of_neg _ (by simpa using hne2)]; rfl]
            cases h : st.reverse.find? (fun x => decide (x.h2_id = item2.id)) <;>
              simp [Option.or]
          rw [List.filterMap_cons, hhead]
          simp only [Option.map_some']
          rw [List.filterMap_congr (fun item2 h2 => by rw [htail item2 h2]),
            ih st hst hnd2, List.map_cons]

lemma noBreaks_append {a b : Str} (ha : noBreaks a) (hb : noBreaks b) :
    noBreaks (a ++ b) := by
  intro c hc
  rcases List.mem_append.mp hc with h | h
  · exact ha c h
  · exact hb c h

lemma embedH2_noBreaks {T I : Str} (hT : noBreaks T) (hI : noBreaks I) :
    noBreaks (embedH2WithId T I) := by
  unfold embedH2WithId
  exact noBreaks_append
    (noBreaks_append (noBreaks_append (noBreaks_append (by decide) hT) (by decide)) hI)
    (by decide)

lemma embedH3_noBreaks {T I : Str} (hT : noBreaks T) (hI : noBreaks I) :
    noBreaks (embedH3WithId T I) := by
  unfold embedH3WithId
  exact noBreaks_append
    (noBreaks_append (noBreaks_append (noBreaks_append (by decide) hT) (by decide)) hI)
    (by decide)

lemma blockLines_noBreaks {s : SectionDraft} (hg : goodSection s) :
    ∀ l ∈ blockLines s, noBreaks l := by
  intro l hl
  obtain ⟨ht, hid, hb, hblocks⟩ := hg
  unfold blockLines at hl
  rcases List.mem_cons.mp hl with rfl | hl
  · exact embedH2_noBreaks ht.2 hid.2.2
  rcases List.mem_cons.mp hl with rfl | hl
  · rw [goodBody_strip hb]
    exact hb.2.1
  rcases List.mem_flatMap.mp hl with ⟨b, hbmem, hbl⟩
  obtain ⟨hbt, hbid, hbb⟩ := hblocks b hbmem
  rcases List.mem_cons.mp hbl with rfl | hbl
  · exact embedH3_noBreaks hbt.2 hbid.2.2
  rcases List.mem_cons.mp hbl with rfl | hbl
  · rw [goodBody_strip hbb]
    exact hbb.2.1
  cases hbl

lemma docLines_noBreaks {secs : List SectionDraft}
    (hg : ∀ s ∈ secs, goodSection s) : ∀ l ∈ docLines secs, noBreaks l := by
  cases secs with
  | nil => intro l hl; cases hl
  | cons s rest =>
      intro l hl
      unfold docLines at hl
      rcases List.mem_append.mp hl with h | h
      · exact blockLines_noBreaks (hg s (List.mem_cons_self s rest)) l h
      · rcases List.mem_flatMap.mp h with ⟨s2, hs2, hl2⟩
        rcases List.mem_cons.mp hl2 with rfl | hl2
        · intro c hc; cases hc
        · exact blockLines_noBreaks
            (hg s2 (List.mem_cons_of_mem s hs2)) l hl2

lemma flatMap_blocks_getLast? :
    ∀ (blocks : List SectionH3Draft), blocks ≠ [] →
      ∃ b ∈ blocks,
        (blocks.flatMap (fun b => [embedH3WithId b.h3 b.id, pyStrip b.body])).getLast? =
          some (pyStrip b.body) := by
  intro blocks
  induction blocks with
  | nil => intro h; exact absurd rfl h
  | cons b rest ih =>
      intro _
      cases rest with
      | nil => exact ⟨b, List.mem_cons_self b [], by simp⟩
      | cons b2 t =>
          obtain ⟨bl, hmem, hlast⟩ := ih (by simp)
          refine ⟨bl, List.mem_cons_of_mem b hmem, ?_⟩
          rw [List.flatMap_cons, List.getLast?_append, hlast]
          rfl

lemma blockLines_getLast? {s : SectionDraft} (hg : goodSection s) :
    ∃ b : Str, (blockLines s).getLast? = some b ∧ b ≠ [] ∧
      (∀ c, b.getLast? = some c → pyIsSpace c = false) := by
  obtain ⟨ht, hid, hb, hblocks⟩ := hg
  cases hbl : s.h3_blocks with
  | nil =>
      refine ⟨s.body, ?_, hb.1, hb.2.2.2.1⟩
      unfold blockLines
      rw [hbl, goodBody_strip hb]
      rfl
  | cons b0 brest =>
      obtain ⟨b, hmem, hlast⟩ := flatMap_blocks_getLast? (b0 :: brest) (by simp)
      obtain ⟨hbt, hbid, hbb⟩ := hblocks b (hbl ▸ hmem)
      refine ⟨b.body, ?_, hbb.1, hbb.2.2.2.1⟩
      unfold blockLines
      rw [hbl]
      rw [show (embedH2WithId s.h2 s.h2_id :: pyStrip s.body ::
          (b0 :: brest).flatMap (fun b => [embedH3WithId b.h3 b.id, pyStrip b.body])) =
        ([embedH2WithId s.h2 s.h2_id, pyStrip s.body] ++
          (b0 :: brest).flatMap (fun b => [embedH3WithId b.h3 b.id, pyStrip b.body]))
        from rfl]
      rw [List.getLast?_append, hlast, goodBody_strip hbb]
      rfl

lemma docLines_getLast? {secs : List SectionDraft} (hne : secs ≠ [])
    (hg : ∀ s ∈ secs, goodSection s) :
    ∃ b : Str, (docLines secs).getLast? = some b ∧ b ≠ [] ∧
      (∀ c, b.getLast? = some c → pyIsSpace c = false) := by
  induction secs with
  | nil => exact absurd rfl hne
  | cons s rest ih =>
      cases rest with
      | nil =>
          obtain ⟨b, h1, h2, h3⟩ :=
            blockLines_getLast? (hg s (List.mem_cons_self s []))
          exact ⟨b, by simpa [docLines] using h1, h2, h3⟩
      | cons s2 t =>
          obtain ⟨b, h1, h2, h3⟩ := ih (by simp)
            (fun x hx => hg x (List.mem_cons_of_mem s hx))
          refine ⟨b, ?_, h2, h3⟩
          rw [docLines_cons_cons, List.getLast?_append]
          have hD : docLines (s2 :: t) ≠ [] := by
            unfold docLines
            intro hcon
            exact blockLines_ne_nil s2 (List.append_eq_nil.mp hcon).1
          cases hDc : docLines (s2 :: t) with
          | nil => exact absurd hDc hD
          | cons d dt =>
              rw [hDc] at h1
              rw [show (([] : Str) :: d :: dt).getLast? = (d :: dt).getLast? from
                List.getLast?_cons_cons, h1]
              rfl

lemma embedH2_ne_nil (T I : Str) : embedH2WithId T I ≠ [] := by
  simp [embedH2WithId, str]

lemma embedH2_head? (T I : Str) : (embedH2WithId T I).head? = some '#' := rfl

/-- Under the well-formedness hypotheses, the assembled document is the
line sequence of the blocks, blank-line separated, with one trailing
newline: the final `strip` removes exactly the newline that the last
rendered block contributed. -/
lemma assemble_eq_docLines (plan : ArticlePlan) (sections : List SectionDraft)
    (hmatch : sections.map (fun s => s.h2_id) = plan.outline.map (fun x => x.id))
    (hnodup : (plan.outline.map (fun x => x.id)).Nodup)
    (hgood : ∀ s ∈ sections, goodSection s) (hne : sections ≠ []) :
    assemble_markdown plan sections = joinNL (docLines sections) ++ ['\n'] := by
  have hordered := dict_pairing renderSectionMarkdown plan.outline sections hmatch hnodup
  have h1 : assemble_markdown plan sections =
      pyStrip (joinNL (sections.map renderSectionMarkdown)) ++ ['\n'] :=
    congrArg (fun z => pyStrip (joinNL z) ++ ['\n']) hordered
  rw [h1, joinNL_map_render sections hne, pyStrip_append_space _ (by decide)]
  have hself : pyStrip (joinNL (docLines sections)) = joinNL (docLines sections) := by
    cases sections with
    | nil => exact absurd rfl hne
    | cons s rest =>
        refine pyStrip_eq_self ?_ ?_
        · intro c hc
          have hdl : docLines (s :: rest) =
              embedH2WithId s.h2 s.h2_id ::
                ((pyStrip s.body ::
                  s.h3_blocks.flatMap
                    (fun b => [embedH3WithId b.h3 b.id, pyStrip b.body])) ++
                  rest.flatMap (fun s2 => [] :: blockLines s2)) := by
            simp [docLines, blockLines]
          rw [hdl, joinNL_head? _ _ (embedH2_ne_nil _ _), embedH2_head?] at hc
          injection hc with e
          rw [← e]
          decide
        · intro c hc
          obtain ⟨b, hb1, hb2, hb3⟩ :=
            @docLines_getLast? (s :: rest) (by simp)
              (fun x hx => hgood x hx)
          rw [joinNL_getLast? _ b hb1 hb2] at hc
          exact hb3 c hc
  rw [hself]

lemma pySplitlines_assemble (plan : ArticlePlan) (sections : List SectionDraft)
    (hmatch : sections.map (fun s => s.h2_id) = plan.outline.map (fun x => x.id))
    (hnodup : (plan.outline.map (fun x => x.id)).Nodup)
    (hgood : ∀ s ∈ sections, goodSection s) (hne : sections ≠ []) :
    pySplitlines (assemble_markdown plan sections) = docLines sections := by
  rw [assemble_eq_docLines plan sections hmatch hnodup hgood hne]
  refine pySplitlines_joinNL (docLines sections) ?_ ?_
  · intro l hl c hc
    exact docLines_noBreaks hgood l hl c hc
  · cases sections with
    | nil => exact absurd rfl hne
    | cons s rest =>
        unfold docLines
        intro hcon
        exact blockLines_ne_nil s (List.append_eq_nil.mp hcon).1

/-! ## Heading-matcher lemmas -/

lemma dropPre_append : ∀ (p rest : Str), dropPre p (p ++ rest) = some rest := by
  intro p
  induction p with
  | nil =>
      intro rest
      rw [List.nil_append]
      cases rest <;> rfl
  | cons c t ih =>
      intro rest
      show dropPre (c :: t) (c :: (t ++ rest)) = some rest
      rw [dropPre, if_pos rfl]
      exact ih rest

lemma takeWhile_all_append {p : Char → Bool} {a : Str} (b : Str)
    (h : ∀ c ∈ a, p c = true) :
    (a ++ b).takeWhile p = a ++ b.takeWhile p := by
  induction a with
  | nil => rfl
  | cons c t ih =>
      rw [List.cons_append, List.takeWhile_cons,
        if_pos (h c (List.mem_cons_self c t)), List.cons_append,
        ih (fun x hx => h x (List.mem_cons_of_mem c hx))]

lemma drop_takeWhile_length (p : Char → Bool) (l : Str) :
    l.drop (l.takeWhile p).length = l.dropWhile p := by
  induction l with
  | nil => rfl
  | cons c t ih =>
      rw [List.takeWhile_cons, List.dropWhile_cons]
      by_cases hc : p c = true
      · rw [if_pos hc, if_pos hc, List.length_cons]
        show t.drop (t.takeWhile p).length = _
        exact ih
      · rw [if_neg hc, if_neg hc]
        rfl

lemma parseIdTail_exact (I : Str) (hne : I ≠ []) (hgt : '>' ∉ I) :
    parseIdTail (str " <!-- id:" ++ (I ++ str " -->")) = some I := by
  have hI : ∀ c ∈ I, (fun c => decide (c ≠ '>')) c = true := by
    intro c hc
    simp only [decide_eq_true_eq]
    exact fun h => hgt (h ▸ hc)
  have hrun : (I ++ str " -->").takeWhile (fun c => decide (c ≠ '>')) =
      I ++ str " --" := by
    rw [takeWhile_all_append _ hI]
    rfl
  have hdw : (I ++ str " -->").dropWhile (fun c => decide (c ≠ '>')) = ['>'] := by
    rw [dropWhile_all_append _ hI]
    rfl
  have hIlen : 1 ≤ I.length := by
    cases I with
    | nil => exact absurd rfl hne
    | cons a b => simp
  simp only [parseIdTail, dropPre_append]
  rw [drop_takeWhile_length, hdw, hrun]
  have hlen : (I ++ str " --").length = I.length + 3 := by
    simp [str]
  split
  · rename_i tail heq
    have htail : tail = [] := by
      injection heq with _ h
      exact h.symm
    subst htail
    rw [if_pos]
    · rw [hlen, show I.length + 3 - 3 = I.length from by omega, List.take_left]
    · refine ⟨by omega, ?_, rfl⟩
      rw [hlen, show I.length + 3 - 3 = I.length from by omega, List.drop_left]
  · rename_i hx
    exact absurd rfl (hx [])

lemma findTitleId_isSome :
    ∀ (T accRev rest : Str), T ≠ [] → (∃ i, parseIdTail rest = some i) →
      (findTitleId accRev (T ++ rest)).isSome = true := by
  intro T
  induction T with
  | nil => intro accRev rest h _; exact absurd rfl h
  | cons c t ih =>
      intro accRev rest _ hp
      show (findTitleId accRev (c :: (t ++ rest))).isSome = true
      rw [findTitleId]
      cases t with
      | nil =>
          obtain ⟨i, hi⟩ := hp
          rw [List.nil_append, hi]
          rfl
      | cons d t2 =>
          cases h : parseIdTail ((d :: t2) ++ rest) with
          | some i => rfl
          | none => exact ih (c :: accRev) rest (by simp) hp

lemma h2MatchLine_embed {T I : Str} (hT : T ≠ []) (hI : I ≠ []) (hgt : '>' ∉ I) :
    (h2MatchLine (embedH2WithId T I)).isSome = true := by
  unfold h2MatchLine embedH2WithId
  rw [show str "## " ++ T ++ str " <!-- id:" ++ I ++ str " -->" =
    str "## " ++ (T ++ (str " <!-- id:" ++ (I ++ str " -->"))) by simp]
  rw [dropPre_append]
  exact findTitleId_isSome T [] _ hT ⟨I, parseIdTail_exact I hI hgt⟩

lemma h3MatchLine_embed {T I : Str} (hT : T ≠ []) (hI : I ≠ []) (hgt : '>' ∉ I) :
    (h3MatchLine (embedH3WithId T I)).isSome = true := by
  unfold h3MatchLine embedH3WithId
  rw [show str "### " ++ T ++ str " <!-- id:" ++ I ++ str " -->" =
    str "### " ++ (T ++ (str " <!-- id:" ++ (I ++ str " -->"))) by simp]
  rw [dropPre_append]
  exact findTitleId_isSome T [] _ hT ⟨I, parseIdTail_exact I hI hgt⟩

lemma h2MatchLine_embedH3_none (T I : Str) :
    h2MatchLine (embedH3WithId T I) = none := by
  unfold h2MatchLine embedH3WithId
  rw [show str "### " ++ T ++ str " <!-- id:" ++ I ++ str " -->" =
    '#' :: '#' :: '#' :: (' ' :: (T ++ (str " <!-- id:" ++ (I ++ str " -->"))))
    by simp [str]]
  rw [show (str "## ") = '#' :: '#' :: [' '] from rfl]
  rw [dropPre, if_pos rfl, dropPre, if_pos rfl, dropPre,
    if_neg (by decide : ¬ (' ' = '#'))]

lemma h2MatchLine_nil : h2MatchLine ([] : Str) = none := rfl

lemma h3MatchLine_nil : h3MatchLine ([] : Str) = none := rfl

/-! ## Scanner lemmas -/

lemma flushH3_proj (st : ScanState) :
    (flushH3 st).h2L = st.h2L ∧ (flushH3 st).curH2 = st.curH2 ∧
      (flushH3 st).curBody2 = st.curBody2 := by
  unfold flushH3
  cases st.curH3 with
  | none => exact ⟨rfl, rfl, rfl⟩
  | some i =>
      by_cases h : st.curBody3 ≠ [] ∧ st.inH3 = true ∧ i ≠ []
      · simp only [if_pos h]
        exact ⟨trivial, trivial, trivial⟩
      · simp only [if_neg h]
        exact ⟨trivial, trivial, trivial⟩

lemma flushH2_h2L (st : ScanState) : (flushH2 st).h2L = h2Final st := by
  unfold flushH2 h2Final
  cases st.curH2 with
  | none => simp
  | some i => simp

lemma flushH2_curBody2 (st : ScanState) : (flushH2 st).curBody2 = [] := by
  unfold flushH2
  cases st.curH2 <;> rfl

lemma finalize_h2L (st : ScanState) :
    (flushH2 (flushH3 st)).h2L = h2Final st := by
  rw [flushH2_h2L]
  obtain ⟨h1, h2, h3⟩ := flushH3_proj st
  unfold h2Final
  rw [h1, h2, h3]

lemma scanStep_h2 {line t i : Str} (h : h2MatchLine line = some (t, i))
    (st : ScanState) :
    scanStep st line =
      { flushH2 (flushH3 st) with curH2 := some i, inH3 := false } := by
  unfold scanStep
  rw [h]

lemma scanStep_h3 {line t i : Str} (h2 : h2MatchLine line = none)
    (h3 : h3MatchLine line = some (t, i)) (st : ScanState) :
    scanStep st line =
      { flushH3 st with curBody3 := [], inH3 := true, curH3 := some i } := by
  unfold scanStep
  rw [h2, h3]

lemma scanStep_body {line : Str} (h2 : h2MatchLine line = none)
    (h3 : h3MatchLine line = none) (st : ScanState) :
    (scanStep st line).h2L = st.h2L ∧ (scanStep st line).curH2 = st.curH2 ∧
      (scanStep st line).curBody2 =
        (if st.curH2.isSome then st.curBody2 ++ [line] else st.curBody2) := by
  unfold scanStep
  rw [h2, h3]
  by_cases hin : st.inH3 = true <;> by_cases hsome : st.curH2.isSome = true <;>
    simp [hin, hsome]

lemma bodyTextH2_good (L : List Str)
    (h : ∀ l ∈ L, pyStrip l = l ∧ l ≠ [] ∧ h3MatchLine l = none) :
    bodyTextH2 L = L.flatten := by
  induction L with
  | nil => rfl
  | cons l t ih =>
      obtain ⟨h1, h2, h3⟩ := h l (List.mem_cons_self l t)
      unfold bodyTextH2 at *
      rw [List.filter_cons, if_pos (by simp [h1, h2, h3]), List.map_cons]
      show joinEmpty (pyStrip l :: _) = _
      unfold joinEmpty
      rw [List.flatten_cons, h1]
      have := ih (fun x hx => h x (List.mem_cons_of_mem l hx))
      unfold joinEmpty at this
      rw [this]
      rfl

lemma bodyTextH2_append_blank (C : List Str) :
    bodyTextH2 (C ++ [([] : Str)]) = bodyTextH2 C := by
  unfold bodyTextH2
  rw [List.filter_append]
  simp [pyStrip]

/-- Processing the rendered lines of a run of level-2 blocks leaves the
level-1 output, the current heading and its accumulated body prefix
intact, appending exactly the block bodies to the level-1 accumulation. -/
lemma scan_h3blocks :
    ∀ (blocks : List SectionH3Draft) (st : ScanState),
      (∀ b ∈ blocks, goodTitle b.h3 ∧ goodId b.id ∧ goodBody b.body) →
      st.curH2.isSome = true →
      (List.foldl scanStep st
          (blocks.flatMap (fun b => [embedH3WithId b.h3 b.id, pyStrip b.body]))).h2L =
          st.h2L ∧
      (List.foldl scanStep st
          (blocks.flatMap (fun b => [embedH3WithId b.h3 b.id, pyStrip b.body]))).curH2 =
          st.curH2 ∧
      (List.foldl scanStep st
          (blocks.flatMap (fun b => [embedH3WithId b.h3 b.id, pyStrip b.body]))).curBody2 =
          st.curBody2 ++ blocks.map (fun b => b.body) := by
  intro blocks
  induction blocks with
  | nil => intro st _ _; simp
  | cons b rest ih =>
      intro st hg hsome
      obtain ⟨hbt, hbid, hbb⟩ := hg b (List.mem_cons_self b rest)
      rw [List.flatMap_cons]
      rw [show ([embedH3WithId b.h3 b.id, pyStrip b.body] ++
          rest.flatMap (fun b => [embedH3WithId b.h3 b.id, pyStrip b.body])) =
        embedH3WithId b.h3 b.id :: pyStrip b.body ::
          rest.flatMap (fun b => [embedH3WithId b.h3 b.id, pyStrip b.body]) from rfl]
      rw [List.foldl_cons, List.foldl_cons]
      have hm3 : (h3MatchLine (embedH3WithId b.h3 b.id)).isSome = true :=
        h3MatchLine_embed hbt.1 hbid.1 hbid.2.1
      cases hmm : h3MatchLine (embedH3WithId b.h3 b.id) with
      | none => rw [hmm] at hm3; cases hm3
      | some p =>
          have hstep1 := scanStep_h3 (h2MatchLine_embedH3_none b.h3 b.id)
            (by rw [hmm] : h3MatchLine (embedH3WithId b.h3 b.id) = some (p.1, p.2)) st
          rw [hstep1]
          set stA : ScanState :=
            { flushH3 st with curBody3 := [], inH3 := true, curH3 := some p.2 } with hstA
          obtain ⟨hA1, hA2, hA3⟩ := flushH3_proj st
          have hA1s : stA.h2L = st.h2L := hA1
          have hA2s : stA.curH2 = st.curH2 := hA2
          have hA3s : stA.curBody2 = st.curBody2 := hA3
          rw [goodBody_strip hbb]
          obtain ⟨hB1, hB2, hB3⟩ := scanStep_body hbb.2.2.2.2.1 hbb.2.2.2.2.2 stA
          have hBsome : (scanStep stA b.body).curH2.isSome = true := by
            rw [hB2, hA2s, hsome]
          obtain ⟨hC1, hC2, hC3⟩ := ih (scanStep stA b.body)
            (fun x hx => hg x (List.mem_cons_of_mem b hx)) hBsome
          refine ⟨?_, ?_, ?_⟩
          · rw [hC1, hB1, hA1s]
          · rw [hC2, hB2, hA2s]
          · rw [hC3, hB3, if_pos (by rw [hA2s]; exact hsome), hA3s, List.map_cons]
            simp

/-- Processing one rendered section block flushes the pending level-1
entry and leaves the new section's body lines pending. -/
lemma scan_block (s : SectionDraft) (st : ScanState) (hg : goodSection s) :
    ∃ i : Str,
      (List.foldl scanStep st (blockLines s)).h2L = h2Final st ∧
      (List.foldl scanStep st (blockLines s)).curH2 = some i ∧
      (List.foldl scanStep st (blockLines s)).curBody2 =
        s.body :: s.h3_blocks.map (fun b => b.body) := by
  obtain ⟨ht, hid, hb, hblocks⟩ := hg
  unfold blockLines
  rw [List.foldl_cons, List.foldl_cons]
  have hm2 : (h2MatchLine (embedH2WithId s.h2 s.h2_id)).isSome = true :=
    h2MatchLine_embed ht.1 hid.1 hid.2.1
  cases hmm : h2MatchLine (embedH2WithId s.h2 s.h2_id) with
  | none => rw [hmm] at hm2; cases hm2
  | some p =>
      refine ⟨p.2, ?_⟩
      have hstep1 := scanStep_h2
        (by rw [hmm] : h2MatchLine (embedH2WithId s.h2 s.h2_id) = some (p.1, p.2)) st
      rw [hstep1]
      set stA : ScanState :=
        { flushH2 (flushH3 st) with curH2 := some p.2, inH3 := false } with hstA
      have hA1 : stA.h2L = h2Final st := finalize_h2L st
      have hA2 : stA.curH2 = some p.2 := rfl
      have hA3 : stA.curBody2 = [] := flushH2_curBody2 (flushH3 st)
      rw [goodBody_strip hb]
      obtain ⟨hB1, hB2, hB3⟩ := scanStep_body hb.2.2.2.2.1 hb.2.2.2.2.2 stA
      have hBsome : (scanStep stA s.body).curH2.isSome = true := by
        simp [hB2, hA2]
      obtain ⟨hC1, hC2, hC3⟩ := scan_h3blocks s.h3_blocks (scanStep stA s.body)
        hblocks hBsome
      refine ⟨?_, ?_, ?_⟩
      · rw [hC1, hB1, hA1]
      · rw [hC2, hB2, hA2]
      · rw [hC3, hB3, if_pos (by rw [hA2]; rfl), hA3]
        rfl

lemma goodBody_line_props {b : Str} (h : goodBody b) :
    pyStrip b = b ∧ b ≠ [] ∧ h3MatchLine b = none :=
  ⟨goodBody_strip h, h.1, h.2.2.2.2.2⟩

/-- The pending body of a well-formed section flushes to exactly the
body length plus the lengths of its level-2 bodies. -/
lemma bodyTextH2_section (s : SectionDraft) (hg : goodSection s) :
    (bodyTextH2 (s.body :: s.h3_blocks.map (fun b => b.body))).length =
      s.body.length + ((s.h3_blocks.map (fun b => b.body.length)).sum) := by
  obtain ⟨_, _, hb, hblocks⟩ := hg
  rw [bodyTextH2_good]
  · rw [List.length_flatten]
    simp [Function.comp_def]
  · intro l hl
    rcases List.mem_cons.mp hl with rfl | hl
    · exact goodBody_line_props hb
    · rcases List.mem_map.mp hl with ⟨b, hbm, rfl⟩
      exact goodBody_line_props (hblocks b hbm).2.2

/-- Processing the remaining sections (each preceded by the blank
separator line) appends one entry per section, of exactly the expected
length. -/
lemma scan_rest :
    ∀ (secs : List SectionDraft) (st : ScanState),
      (∀ s ∈ secs, goodSection s) → st.curH2.isSome = true →
      ∃ entries : List (Str × Nat),
        h2Final (List.foldl scanStep st
            (secs.flatMap (fun s => [] :: blockLines s))) = h2Final st ++ entries ∧
        List.Forall₂
          (fun (e : Str × Nat) (s : SectionDraft) =>
            e.2 = s.body.length + ((s.h3_blocks.map (fun b => b.body.length)).sum))
          entries secs := by
  intro secs
  induction secs with
  | nil => intro st _ _; exact ⟨[], by simp, List.Forall₂.nil⟩
  | cons s rest ih =>
      intro st hg hsome
      rw [List.flatMap_cons]
      rw [show (([] :: blockLines s) ++ rest.flatMap (fun s2 => [] :: blockLines s2)) =
        [] :: (blockLines s ++ rest.flatMap (fun s2 => [] :: blockLines s2)) from rfl]
      rw [List.foldl_cons, List.foldl_append]
      obtain ⟨h01, h02, h03⟩ := scanStep_body h2MatchLine_nil h3MatchLine_nil st
      have hfin0 : h2Final (scanStep st []) = h2Final st := by
        unfold h2Final
        rw [h01, h02, h03, if_pos hsome]
        cases hc : st.curH2 with
        | none => simp [hc] at hsome
        | some j => rw [bodyTextH2_append_blank]
      have h0some : (scanStep st []).curH2.isSome = true := by
        rw [h02]; exact hsome
      obtain ⟨i, hb1, hb2, hb3⟩ :=
        scan_block s (scanStep st []) (hg s (List.mem_cons_self s rest))
      have hbsome : (List.foldl scanStep (scanStep st []) (blockLines s)).curH2.isSome
          = true := by rw [hb2]; rfl
      obtain ⟨entries, hr1, hr2⟩ := ih (List.foldl scanStep (scanStep st [])
        (blockLines s)) (fun x hx => hg x (List.mem_cons_of_mem s hx)) hbsome
      refine ⟨(i, s.body.length +
        ((s.h3_blocks.map (fun b => b.body.length)).sum)) :: entries, ?_, ?_⟩
      · rw [hr1]
        unfold h2Final
        rw [hb1, hb2, hb3, hfin0]
        rw [bodyTextH2_section s (hg s (List.mem_cons_self s rest))]
        unfold h2Final
        simp
      · exact List.Forall₂.cons rfl hr2

/-- C2 (amended): for a plan with pairwise-distinct outline identifiers
(free of `>` and line breaks), and matching well-formed sections — one
per outline item, in order, with single-line whitespace-trimmed nonempty
bodies that match neither heading-id pattern, and break-free heading
texts — assembling then extracting yields exactly one level-1 entry per
section, in order, whose measured length is at least that section's body
length. -/
theorem assemble_extract_roundtrip (plan : ArticlePlan) (sections : List SectionDraft)
    (hmatch : sections.map (fun s => s.h2_id) = plan.outline.map (fun x => x.id))
    (hnodup : (plan.outline.map (fun x => x.id)).Nodup)
    (hgood : ∀ s ∈ sections, goodSection s) :
    List.Forall₂ (fun (e : Str × Nat) (s : SectionDraft) => s.body.length ≤ e.2)
      (extractBodyLengths (assemble_markdown plan sections)).1 sections := by
  cases sections with
  | nil =>
      have houtline : plan.outline = [] := by
        cases ho : plan.outline with
        | nil => rfl
        | cons a b => rw [ho] at hmatch; cases hmatch
      have hasm : assemble_markdown plan [] = ['\n'] := by
        unfold assemble_markdown
        rw [houtline]
        rfl
      rw [hasm]
      rw [show (extractBodyLengths ['\n']).1 = [] from by decide]
      exact List.Forall₂.nil
  | cons s rest =>
      have hlines := pySplitlines_assemble plan (s :: rest) hmatch hnodup hgood (by simp)
      have hextract : (extractBodyLengths (assemble_markdown plan (s :: rest))).1 =
          (flushH2 (flushH3 (List.foldl scanStep {}
            (pySplitlines (assemble_markdown plan (s :: rest)))))).h2L := rfl
      rw [hlines] at hextract
      rw [finalize_h2L] at hextract
      rw [hextract]
      rw [show docLines (s :: rest) =
        blockLines s ++ rest.flatMap (fun s2 => [] :: blockLines s2) from rfl]
      rw [List.foldl_append]
      obtain ⟨i, hb1, hb2, hb3⟩ :=
        scan_block s ({} : ScanState) (hgood s (List.mem_cons_self s rest))
      obtain ⟨entries, hr1, hr2⟩ := scan_rest rest
        (List.foldl scanStep {} (blockLines s))
        (fun x hx => hgood x (List.mem_cons_of_mem s hx))
        (by rw [hb2]; rfl)
      rw [hr1]
      have hfirst : h2Final (List.foldl scanStep {} (blockLines s)) =
          [(i, s.body.length + ((s.h3_blocks.map (fun b => b.body.length)).sum))] := by
        unfold h2Final
        rw [hb1, hb2, hb3,
          bodyTextH2_section s (hgood s (List.mem_cons_self s rest))]
        rfl
      rw [hfirst]
      rw [show ([(i, s.body.length +
          ((s.h3_blocks.map (fun b => b.body.length)).sum))] ++ entries) =
        ((i, s.body.length + ((s.h3_blocks.map (fun b => b.body.length)).sum))
          :: entries) from rfl]
      refine List.Forall₂.cons (Nat.le_add_right _ _) (hr2.imp ?_)
      intro a b hab
      rw [hab]
      exact Nat.le_add_right _ _

/-- Witness for C2: one well-formed single-line section round-trips to
one entry of sufficient length. -/
theorem assemble_extract_roundtrip_witness :
    List.Forall₂ (fun (e : Str × Nat) (s : SectionDraft) => s.body.length ≤ e.2)
      (extractBodyLengths (assemble_markdown planRT sectionsRT)).1 sectionsRT :=
  assemble_extract_roundtrip planRT sectionsRT (by decide) (by decide) (by decide)

/-- C2 counterexample: a single declared section whose body is
`"a\nb"` — three code points whose two lines match neither heading-id
pattern, so it is well-formed in the claim's sense — extracts to a
single level-1 entry of measured length 2, which is strictly below the
body length 3; the per-line `strip`-and-join measurement loses the
newline. -/
theorem assemble_extract_roundtrip_cex :
    ((pySplitlines (str "a\nb")).all
      (fun l => (h2MatchLine l).isNone && (h3MatchLine l).isNone) = true) ∧
    (sectionsRTCex.map (fun s => s.body.length)) = [3] ∧
    (extractBodyLengths (assemble_markdown planRTCex sectionsRTCex)).1 =
      [(str "h2-1", 2)] ∧
    2 < 3 := by
  exact ⟨by decide, by decide, by decide, by decide⟩

/-! ## Retry behaviour of the WordPress client -/

lemma wpLoop_step_mid (env : WpEnv) (M : Nat) (b : ℚ) (r a : Nat)
    (le : Option Str) (ls : Option Nat) (hr : r ≠ 0)
    (hf : attemptFails (env.attempt a)) :
    wpLoop env M b (r + 1) a le ls =
      ((wpLoop env M b r (a + 1) (some (attemptError (env.attempt a)))
          (statusUpd (env.attempt a) ls)).1,
       (wpLoop env M b r (a + 1) (some (attemptError (env.attempt a)))
          (statusUpd (env.attempt a) ls)).2.1 + 1,
       b * (2 : ℚ) ^ (a - 1) ::
         (wpLoop env M b r (a + 1) (some (attemptError (env.attempt a)))
            (statusUpd (env.attempt a) ls)).2.2) := by
  cases h : env.attempt a with
  | requestError msg =>
      simp only [wpLoop, h, attemptError, statusUpd]
      rw [if_neg hr]
  | response status json text =>
      rw [h] at hf
      have hf' : ¬ (200 ≤ status ∧ status < 300) := hf
      simp only [wpLoop, h, attemptError, statusUpd]
      rw [if_neg hf', if_neg hr]

lemma wpLoop_step_last (env : WpEnv) (M : Nat) (b : ℚ) (a : Nat)
    (le : Option Str) (ls : Option Nat)
    (hf : attemptFails (env.attempt a)) :
    wpLoop env M b 1 a le ls =
      (Except.ok { success := false,
                   error_message := some (attemptError (env.attempt a)),
                   status_code := statusUpd (env.attempt a) ls }, 1, []) := by
  show wpLoop env M b (0 + 1) a le ls = _
  cases h : env.attempt a with
  | requestError msg => simp [wpLoop, h, attemptError, statusUpd]
  | response status json text =>
      rw [h] at hf
      have hf' : ¬ (200 ≤ status ∧ status < 300) := hf
      simp only [wpLoop, h, attemptError, statusUpd]
      rw [if_neg hf']
      simp

lemma wpLoop_three (env : WpEnv) (b : ℚ)
    (h1 : attemptFails (env.attempt 1)) (h2 : attemptFails (env.attempt 2))
    (h3 : attemptFails (env.attempt 3)) :
    wpLoop env 3 b 3 1 none none =
      (Except.ok { success := false,
                   error_message := some (attemptError (env.attempt 3)),
                   status_code := lastRespStatus env 3 },
       3, [b * (2 : ℚ) ^ 0, b * (2 : ℚ) ^ 1]) := by
  rw [show wpLoop env 3 b 3 1 none none = wpLoop env 3 b (2 + 1) 1 none none
        from rfl,
      wpLoop_step_mid env 3 b 2 1 none none (by decide) h1]
  rw [show wpLoop env 3 b 2 2 (some (attemptError (env.attempt 1)))
          (statusUpd (env.attempt 1) none) =
        wpLoop env 3 b (1 + 1) 2 (some (attemptError (env.attempt 1)))
          (statusUpd (env.attempt 1) none) from rfl,
      wpLoop_step_mid env 3 b 1 2 (some (attemptError (env.attempt 1)))
        (statusUpd (env.attempt 1) none) (by decide) h2]
  rw [wpLoop_step_last env 3 b 3 (some (attemptError (env.attempt 2)))
        (statusUpd (env.attempt 2) (statusUpd (env.attempt 1) none)) h3]
  rfl

/-- C3: with `max_retries = 3` and `backoff_base = 0.5`, if building
the payload succeeds and every one of the first three attempts either
raises a transport error or answers a non-2xx status, `create_draft`
performs exactly 3 POSTs, sleeps 0.5 then 1.0 seconds (and not after
the last attempt), raises nothing, and returns a failure result
carrying the last attempt's error message and the last observed status
code. The claim's further clause that no input or response can make
the method raise is refuted separately: a 2xx response with an
unparseable body escapes as an exception (`wp_never_raises_cex`). -/
theorem wp_retry_exhaustion (env : WpEnv)
    (hpay : env.buildPayload = Except.ok ())
    (hfail : ∀ k, k < 3 → attemptFails (env.attempt (k + 1))) :
    create_draft env 3 (1/2 : ℚ) =
      (Except.ok { success := false,
                   error_message := some (attemptError (env.attempt 3)),
                   status_code := lastRespStatus env 3 },
       3, [1/2, 1]) := by
  have h1 : attemptFails (env.attempt 1) := hfail 0 (by decide)
  have h2 : attemptFails (env.attempt 2) := hfail 1 (by decide)
  have h3 : attemptFails (env.attempt 3) := hfail 2 (by decide)
  have key := wpLoop_three env (1/2 : ℚ) h1 h2 h3
  unfold create_draft
  rw [hpay]
  norm_num at key
  exact key

/-- C3 witness: the theorem applied to a target that always answers
HTTP 500 with a well-formed error body. -/
theorem wp_retry_exhaustion_witness :
    create_draft envWp500 3 (1/2 : ℚ) =
      (Except.ok { success := false,
                   error_message := some (attemptError (envWp500.attempt 3)),
                   status_code := lastRespStatus envWp500 3 },
       3, [1/2, 1]) :=
  wp_retry_exhaustion envWp500 rfl (by decide)

/-- C3 counterexample: against a target whose 2xx response has a body
that fails to parse as JSON, `response.json()` raises and the
exception escapes `create_draft`, refuting the claim's clause that it
never raises past this boundary on any input or response. -/
theorem wp_never_raises_cex :
    (create_draft envWpBadJson 3 (1/2 : ℚ)).1 = Except.error excJsonDecode ∧
    envWpBadJson.attempt 1 = WpAttempt.response 200 none (str "not json") := by
  exact ⟨rfl, rfl⟩

/-! ## The soft-revision loop bound -/

lemma softLoop_le (env : OrchEnv) (plan : ArticlePlan) :
    ∀ (fuel attempt : Nat) (d : ArticleDraft) (qc : QcReport),
    (softLoop env plan fuel attempt d qc).2 ≤ fuel := by
  intro fuel
  induction fuel with
  | zero => intro a d qc; simp [softLoop]
  | succ f ih =>
      intro a d qc
      by_cases hs : qc.soft_failed = false
      · simp [softLoop, hs]
      · rcases hq : softQc env a with e | soft
        · simp [softLoop, hs, hq]
        · by_cases ht : soft.fix_targets = []
          · simp [softLoop, hs, hq, ht]
          · rcases ha : applyRevise env a d plan with e | ⟨d2, qc2⟩
            · simp [softLoop, hs, hq, ht, ha]
            · by_cases hh : qc2.hard_failed = true
              · simp [softLoop, hs, hq, ht, ha, hh]
              · have hrec := ih (a + 1) d2 qc2
                rcases hw : softLoop env plan f (a + 1) d2 qc2 with ⟨res, n⟩
                rw [hw] at hrec
                have hred : (softLoop env plan (f + 1) a d qc).2 = n + 1 := by
                  simp [softLoop, hs, hq, ht, ha, hh, hw]
                rw [hred]
                exact Nat.succ_le_succ hrec

lemma cad_count_le (env : OrchEnv) : (create_article_draft env).2 ≤ 2 := by
  rcases hp : env.planArticle with e | plan
  · simp [create_article_draft, hp]
  · rcases hd : draft_article env plan with e | ⟨draft, qc⟩
    · simp [create_article_draft, hp, hd]
    · by_cases hh : qc.hard_failed = true
      · simp [create_article_draft, hp, hd, hh]
      · have hb := softLoop_le env plan 2 0 draft qc
        rcases hw : softLoop env plan 2 0 draft qc with ⟨res, n⟩
        rw [hw] at hb
        rcases res with e | r
        · simpa [create_article_draft, hp, hd, hh, hw] using hb
        · rcases r with r | ⟨d2, qc2⟩
          · simpa [create_article_draft, hp, hd, hh, hw] using hb
          · rcases hf : env.faqResult with e | faq
            · simpa [create_article_draft, hp, hd, hh, hw, hf] using hb
            · have hred : (create_article_draft env).2 = n := by
                simp only [create_article_draft, hp, hd, hw, hf]
                rw [if_neg hh]
                split
                · rfl
                · split <;> rfl
              rw [hred]
              exact hb

lemma cad_count_via_softLoop (env : OrchEnv) (plan : ArticlePlan)
    (draft : ArticleDraft) (qc : QcReport)
    (hp : env.planArticle = Except.ok plan)
    (hd : draft_article env plan = Except.ok (draft, qc))
    (hh : qc.hard_failed = false) :
    (create_article_draft env).2 = (softLoop env plan 2 0 draft qc).2 := by
  have hh' : ¬ qc.hard_failed = true := by simp [hh]
  rcases hw : softLoop env plan 2 0 draft qc with ⟨res, n⟩
  rcases res with e | r
  · simp [create_article_draft, hp, hd, hh', hw]
  · rcases r with r | ⟨d2, qc2⟩
    · simp [create_article_draft, hp, hd, hh', hw]
    · rcases hf : env.faqResult with e | faq
      · simp [create_article_draft, hp, hd, hh', hw, hf]
      · simp only [create_article_draft, hp, hd, hw, hf]
        rw [if_neg hh']
        split
        · rfl
        · split <;> rfl

lemma cad_count_zero (env : OrchEnv) (plan : ArticlePlan)
    (draft : ArticleDraft) (qc : QcReport)
    (hp : env.planArticle = Except.ok plan)
    (hd : draft_article env plan = Except.ok (draft, qc))
    (hh : qc.hard_failed = false)
    (d0 : SoftQcData) (hq0 : softQc env 0 = Except.ok d0)
    (ht : d0.fix_targets = []) :
    (create_article_draft env).2 = 0 := by
  have hsl : softLoop env plan 2 0 draft qc =
      (Except.ok (Sum.inr (draft, qc)), 0) := by
    rw [show softLoop env plan 2 0 draft qc =
          softLoop env plan (1 + 1) 0 draft qc from rfl]
    by_cases hs : qc.soft_failed = false
    · simp [softLoop, hs]
    · simp [softLoop, hs, hq0, ht]
  rw [cad_count_via_softLoop env plan draft qc hp hd hh, hsl]

/-- C8: the `_apply_revise` call count of `create_article_draft` never
exceeds 2, over every environment (however many soft issues persist
across iterations); and whenever the initial draft is not hard-failed,
a first soft-QC answer whose decoded fix-target list is empty ends the
loop with no revision call at all - in particular a malformed
(non-JSON) soft-QC response, which `_soft_qc` degrades to the default
dictionary with an empty fix-target list instead of raising. -/
theorem soft_revision_bound (env : OrchEnv) :
    (create_article_draft env).2 ≤ 2 ∧
    (∀ plan draft qc, env.planArticle = Except.ok plan →
      draft_article env plan = Except.ok (draft, qc) →
      qc.hard_failed = false →
      (∀ d, softQc env 0 = Except.ok d → d.fix_targets = [] →
        (create_article_draft env).2 = 0) ∧
      (∀ raw, env.softQcRaw 0 = Except.ok raw →
        env.decodeSoft raw = SoftParse.jsonError →
        (create_article_draft env).2 = 0)) ∧
    (∀ plan fuel attempt d qc, qc.soft_failed = true →
      ∀ d0, softQc env attempt = Except.ok d0 → d0.fix_targets = [] →
        softLoop env plan (fuel + 1) attempt d qc =
          (Except.ok (Sum.inr (d, qc)), 0)) := by
  refine ⟨cad_count_le env, ?_, ?_⟩
  case refine_2 =>
    intro plan fuel attempt d qc hs d0 hq0 ht
    simp [softLoop, hs, hq0, ht]
  intro plan draft qc hp hd hh
  have key : ∀ d, softQc env 0 = Except.ok d → d.fix_targets = [] →
      (create_article_draft env).2 = 0 :=
    fun d hq ht => cad_count_zero env plan draft qc hp hd hh d hq ht
  refine ⟨key, ?_⟩
  intro raw h1 h2
  exact key { fix_targets := [], fix_instructions := [],
              overall_notes := str "JSON parse failed" }
    (by simp [softQc, h1, h2]) rfl

set_option maxRecDepth 400000 in
/-- C8 witness: on a concrete plan whose drafted article passes every
hard rule but trips the soft assertive-language rule, with non-JSON
soft-QC responses, the loop is entered and ends with zero
`_apply_revise` calls. -/
theorem soft_revision_bound_witness : (create_article_draft envSoft0).2 = 0 :=
  ((soft_revision_bound envSoft0).2.1 planSoft0 cadInit0.1 cadInit0.2 rfl
    rfl rfl).2 (str "x") rfl rfl

/-! ## The batch item loop -/

lemma loopResults_length (env : BatchEnv) (total : Nat) :
    ∀ (n idx : Nat), (loopResults env total idx n).length = n := by
  intro n
  induction n with
  | zero => intro idx; rfl
  | succ m ih => intro idx; simp [loopResults, ih]

lemma loopResults_get (env : BatchEnv) (total : Nat) :
    ∀ (n idx k : Nat) (h : k < (loopResults env total idx n).length),
      (loopResults env total idx n).get ⟨k, h⟩ =
        (itemResultD env total (idx + k)).1 := by
  intro n
  induction n with
  | zero => intro idx k h; simp [loopResults] at h
  | succ m ih =>
      intro idx k h
      cases k with
      | zero => simp [loopResults]
      | succ j =>
          have h' : j < (loopResults env total (idx + 1) m).length := by
            have hl := loopResults_length env total (m + 1) idx
            rw [hl] at h
            rw [loopResults_length env total m (idx + 1)]
            omega
          have hcons : (loopResults env total idx (m + 1)).get ⟨j + 1, h⟩ =
              (loopResults env total (idx + 1) m).get ⟨j, h'⟩ := rfl
          rw [hcons, ih (idx + 1) j h', Nat.add_assoc, Nat.add_comm 1 j]

lemma mem_loopPubs (env : BatchEnv) (total : Nat) :
    ∀ (n idx j : Nat), j ∈ loopPubs env total idx n ↔
      ∃ k, k < n ∧ j = idx + k ∧
        (itemResultD env total (idx + k)).2.1 = true := by
  intro n
  induction n with
  | zero => intro idx j; simp [loopPubs]
  | succ m ih =>
      intro idx j
      simp only [loopPubs, List.mem_append]
      rw [ih (idx + 1) j]
      constructor
      · rintro (hj | ⟨k, hk, hjk, hp⟩)
        · by_cases hp : (itemResultD env total idx).2.1 = true
          · rw [if_pos hp] at hj
            simp only [List.mem_singleton] at hj
            exact ⟨0, Nat.succ_pos m, by omega, by
              rw [Nat.add_zero]; exact hp⟩
          · rw [if_neg hp] at hj
            simp at hj
        · refine ⟨k + 1, by omega, by omega, ?_⟩
          rw [show idx + (k + 1) = idx + 1 + k from by omega]
          exact hp
      · rintro ⟨k, hk, hjk, hp⟩
        cases k with
        | zero =>
            left
            rw [Nat.add_zero] at hp hjk
            rw [if_pos hp, hjk]
            exact List.mem_singleton.mpr rfl
        | succ j' =>
            right
            refine ⟨j', by omega, by omega, ?_⟩
            rw [show idx + 1 + j' = idx + (j' + 1) from by omega]
            exact hp

lemma loopResults_getElem (env : BatchEnv) (total : Nat) :
    ∀ (n idx k : Nat), k < n →
      (loopResults env total idx n)[k]? =
        some (itemResultD env total (idx + k)).1 := by
  intro n
  induction n with
  | zero => intro idx k hk; exact absurd hk (Nat.not_lt_zero k)
  | succ m ih =>
      intro idx k hk
      cases k with
      | zero => simp [loopResults]
      | succ j =>
          have hrec := ih (idx + 1) j (by omega)
          simp only [loopResults, List.getElem?_cons_succ]
          rw [hrec, Nat.add_assoc, Nat.add_comm 1 j]

lemma itemResultD_hard (env : BatchEnv) (total idx : Nat)
    (hh : itemHardQc env idx = some true) :
    (itemResultD env total idx).1.draft_ok = some false ∧
    (itemResultD env total idx).2.1 = false ∧
    (itemResultD env total idx).1.error =
      Option.map joinSemi (itemQcMessages env idx) := by
  rcases hq : itemFinalQc env idx with e | ⟨draft, qc⟩
  · simp [itemHardQc, hq] at hh
  · have hqc : qc.hard_failed = true := by
      have h2 := hh
      simp [itemHardQc, hq] at h2
      exact h2
    refine ⟨?_, ?_, ?_⟩ <;>
      simp [itemResultD, processItem, itemQcMessages, hq, hqc]

lemma itemResultD_ok (env : BatchEnv) (total idx : Nat)
    (hh : itemHardQc env idx = some false)
    (hpb : isOkE (processItem env idx total) = true) :
    (itemResultD env total idx).1.draft_ok = some true ∧
    (itemResultD env total idx).2.1 = true := by
  rcases hq : itemFinalQc env idx with e | ⟨draft, qc⟩
  · simp [itemHardQc, hq] at hh
  · have hqc : qc.hard_failed = false := by
      have h2 := hh
      simp [itemHardQc, hq] at h2
      exact h2
    rcases hw : env.publish idx with e | wp
    · simp [processItem, hq, hqc, hw, isOkE] at hpb
    · constructor <;> simp [itemResultD, processItem, hq, hqc, hw]

lemma runBatchLoop_ok (env : BatchEnv) :
    ∀ (items : List BatchPlanItem) (idx : Nat) (job : JobState),
    (∀ k, k < items.length →
      isOkE (processItem env (idx + k) job.total) = true) →
    runBatchLoop env items idx job =
      ({ job with
          current := job.current + items.length,
          logs := job.logs ++ loopLogs env job.total idx items.length,
          results := job.results ++ loopResults env job.total idx items.length },
       loopPubs env job.total idx items.length, none) := by
  intro items
  induction items with
  | nil =>
      intro idx job hall
      obtain ⟨j1, j2, j3, j4, j5, j6, j7, j8⟩ := job
      simp [runBatchLoop, loopLogs, loopResults, loopPubs]
  | cons it rest ih =>
      intro idx job hall
      obtain ⟨j1, j2, j3, j4, j5, j6, j7, j8⟩ := job
      have h0 : isOkE (processItem env idx j3) = true := by
        have h00 := hall 0 (Nat.succ_pos _)
        rwa [Nat.add_zero] at h00
      rcases hpe : processItem env idx j3 with e | r
      · rw [hpe] at h0; simp [isOkE] at h0
      · obtain ⟨res, pub, logLine⟩ := r
        have hird : itemResultD env j3 idx = (res, pub, logLine) := by
          simp [itemResultD, hpe]
        simp only [runBatchLoop, hpe]
        rw [ih (idx + 1)
            { job_id := j1, status := j2, total := j3, current := j4 + 1,
              logs := j5 ++ [logLine], results := j6 ++ [res],
              started_at := j7, finished_at := j8 }
            (by
              intro k hk
              have h2 := hall (k + 1) (Nat.succ_lt_succ hk)
              rw [show idx + (k + 1) = idx + 1 + k from by omega] at h2
              exact h2)]
        simp only [Prod.mk.injEq, JobState.mk.injEq, loopLogs, loopResults,
          loopPubs, hird, List.append_assoc, List.singleton_append,
          List.length_cons, and_true, true_and]
        omega

/-- C1: for every batch plan, when no item's processing raises, exactly
one item `i0` is hard-failed by QC and every other item's final QC
passes, `run_batch_job` on a fresh job finishes with status `done` and
no caught exception, `current` and the result count both equal the item
count, the `k`-th result record is exactly the one item `k`'s
processing builds; item `i0`'s record has `draft_ok = some false` and
carries the QC issue messages joined with `"; "` as its error, the
publisher is never invoked for `i0`, and every other item is invoked on
the publisher and gets `draft_ok = some true`. -/
theorem batch_item_isolation (env : BatchEnv) (jid : Str) (brief : BatchBrief)
    (bp : BatchPlan) (i0 : Nat)
    (hbp : env.batchPlan = Except.ok bp)
    (hok : ∀ k, k < bp.items.length →
      isOkE (processItem env k bp.items.length) = true)
    (hi0 : i0 < bp.items.length)
    (hhard : ∀ k, k < bp.items.length →
      itemHardQc env k = some (decide (k = i0))) :
    (run_batch_job env jid brief none).1.status = JobStatus.done ∧
    (run_batch_job env jid brief none).2.2 = none ∧
    (run_batch_job env jid brief none).1.current = bp.items.length ∧
    (run_batch_job env jid brief none).1.results.length = bp.items.length ∧
    (∀ k, k < bp.items.length →
      (run_batch_job env jid brief none).1.results[k]? =
        some (itemResultD env bp.items.length k).1) ∧
    (itemResultD env bp.items.length i0).1.draft_ok = some false ∧
    (itemResultD env bp.items.length i0).1.error =
      Option.map joinSemi (itemQcMessages env i0) ∧
    i0 ∉ (run_batch_job env jid brief none).2.1 ∧
    (∀ k, k < bp.items.length → k ≠ i0 →
      k ∈ (run_batch_job env jid brief none).2.1 ∧
      (itemResultD env bp.items.length k).1.draft_ok = some true) := by
  have hout : run_batch_job env jid brief none =
      ({ job_id := jid, status := JobStatus.done, total := bp.items.length,
         current := bp.items.length,
         logs := loopLogs env bp.items.length 0 bp.items.length,
         results := loopResults env bp.items.length 0 bp.items.length,
         started_at := some env.nowStart, finished_at := some env.nowFinish },
       loopPubs env bp.items.length 0 bp.items.length, none) := by
    have key := runBatchLoop_ok env bp.items 0
        { job_id := jid, status := JobStatus.running,
          total := bp.items.length, current := 0, logs := [], results := [],
          started_at := some env.nowStart, finished_at := none }
        (by
          intro k hk
          rw [Nat.zero_add]
          exact hok k hk)
    simp only [run_batch_job, hbp, initialJob, Option.getD_none]
    rw [key]
    simp
  have hhard0 : itemHardQc env i0 = some true := by
    have h2 := hhard i0 hi0
    simpa using h2
  have hitem0 := itemResultD_hard env bp.items.length i0 hhard0
  refine ⟨?_, ?_, ?_, ?_, ?_, hitem0.1, hitem0.2.2, ?_, ?_⟩
  · rw [hout]
  · rw [hout]
  · rw [hout]
  · rw [hout]
    exact loopResults_length env bp.items.length bp.items.length 0
  · intro k hk
    rw [hout]
    have := loopResults_getElem env bp.items.length bp.items.length 0 k hk
    rw [Nat.zero_add] at this
    exact this
  · rw [hout]
    rw [mem_loopPubs]
    rintro ⟨k, hk, hik, hp⟩
    have hk0 : k = i0 := by omega
    subst hk0
    rw [Nat.zero_add] at hp
    rw [hitem0.2.1] at hp
    cases hp
  · intro k hk hne
    have hhk : itemHardQc env k = some false := by
      have h2 := hhard k hk
      simpa [hne] using h2
    have hi := itemResultD_ok env bp.items.length k hhk (hok k hk)
    refine ⟨?_, hi.1⟩
    rw [hout]
    rw [mem_loopPubs]
    refine ⟨k, hk, by omega, ?_⟩
    rw [Nat.zero_add]
    exact hi.2

set_option maxRecDepth 1000000 in
/-- C1 witness: the theorem applied to a concrete two-item batch in
which item 0 hard-fails QC and item 1 drafts cleanly and publishes. -/
theorem batch_item_isolation_witness :
    (run_batch_job envB1 (str "j") briefB1 none).1.status = JobStatus.done ∧
    (run_batch_job envB1 (str "j") briefB1 none).1.current = 2 ∧
    (itemResultD envB1 2 0).1.draft_ok = some false ∧
    0 ∉ (run_batch_job envB1 (str "j") briefB1 none).2.1 := by
  have h := batch_item_isolation envB1 (str "j") briefB1 bpB1 0 rfl
      (by decide) (by decide) (by decide)
  exact ⟨h.1, h.2.2.1, h.2.2.2.2.2.1, h.2.2.2.2.2.2.2.1⟩

/-! ## Terminal job state -/

lemma runBatchLoop_general (env : BatchEnv) :
    ∀ (items : List BatchPlanItem) (idx : Nat) (job : JobState),
    (runBatchLoop env items idx job).1.job_id = job.job_id ∧
    (runBatchLoop env items idx job).1.status = job.status ∧
    (runBatchLoop env items idx job).1.total = job.total ∧
    (runBatchLoop env items idx job).1.started_at = job.started_at ∧
    (runBatchLoop env items idx job).1.finished_at = job.finished_at ∧
    (∃ newLogs, (runBatchLoop env items idx job).1.logs =
      job.logs ++ newLogs) ∧
    (∃ m newRes, m ≤ items.length ∧
      (runBatchLoop env items idx job).1.current = job.current + m ∧
      (runBatchLoop env items idx job).1.results = job.results ++ newRes ∧
      newRes.length = m ∧
      ((runBatchLoop env items idx job).2.2 = none → m = items.length) ∧
      (∀ p, (runBatchLoop env items idx job).2.2 = some p →
        p.1 = idx + m ∧ m < items.length)) := by
  intro items
  induction items with
  | nil =>
      intro idx job
      exact ⟨rfl, rfl, rfl, rfl, rfl, ⟨[], by simp [runBatchLoop]⟩,
        0, [], Nat.zero_le _, rfl, by simp [runBatchLoop], rfl,
        fun _ => rfl, fun p h => Option.noConfusion h⟩
  | cons it rest ih =>
      intro idx job
      rcases hpe : processItem env idx job.total with e | r
      · have hred : runBatchLoop env (it :: rest) idx job =
            (job, [], some (idx, e)) := by
          simp [runBatchLoop, hpe]
        rw [hred]
        refine ⟨rfl, rfl, rfl, rfl, rfl, ⟨[], by simp⟩,
          0, [], Nat.zero_le _, rfl, by simp, rfl,
          fun h => absurd h (Option.some_ne_none _), ?_⟩
        intro p hp
        have h2 : (idx, e) = p := by injection hp
        refine ⟨?_, Nat.succ_pos _⟩
        rw [← h2]
        rfl
      · obtain ⟨res, pub, logLine⟩ := r
        have ihr := ih (idx + 1)
          { job with
            logs := job.logs ++ [logLine],
            results := job.results ++ [res],
            current := job.current + 1 }
        rcases hrec : runBatchLoop env rest (idx + 1)
            { job with
              logs := job.logs ++ [logLine],
              results := job.results ++ [res],
              current := job.current + 1 }
          with ⟨jobF, pubs, exc⟩
        rw [hrec] at ihr
        obtain ⟨hid, hst, hto, hsa, hfa, ⟨newLogs, hlogs⟩,
          m, newRes, hm, hcur, hres, hlen, hexc, hkidx⟩ := ihr
        have hred : runBatchLoop env (it :: rest) idx job =
            (jobF, (if pub then [idx] else []) ++ pubs, exc) := by
          simp only [runBatchLoop, hpe]
          rw [hrec]
        rw [hred]
        refine ⟨by simpa using hid, by simpa using hst, by simpa using hto,
          by simpa using hsa, by simpa using hfa,
          ⟨logLine :: newLogs, ?_⟩,
          m + 1, res :: newRes, by simp; omega, ?_, ?_, by simp [hlen],
          ?_, ?_⟩
        · rw [hlogs]; simp
        · rw [hcur]; simp; omega
        · rw [hres]; simp
        · intro h
          have := hexc h
          simp [this]
        · intro p hp
          obtain ⟨h1, h2⟩ := hkidx p hp
          refine ⟨by omega, ?_⟩
          simp only [List.length_cons]
          omega

/-- C9: every run of `run_batch_job` ends in a terminal status - `done`
exactly when no exception was caught, `failed` otherwise - with
`finished_at` stamped in both cases; a caught exception appends a
`"Job failed: ..."` log line as the last log entry and is the only
early exit: with no exception the results grow by exactly one record
per planned item, and when the exception was caught while processing
item `k` the loop had recorded exactly the `k` earlier items' results
and advanced `current` exactly `k` times - so the results never
outnumber the items attempted before the exception; in every case the
log is append-only and previously recorded results are kept. -/
theorem batch_terminal_state (env : BatchEnv) (jid : Str) (brief : BatchBrief)
    (stored : Option JobState) :
    ((run_batch_job env jid brief stored).1.status = JobStatus.done ∨
     (run_batch_job env jid brief stored).1.status = JobStatus.failed) ∧
    (run_batch_job env jid brief stored).1.finished_at = some env.nowFinish ∧
    ((run_batch_job env jid brief stored).2.2 = none ↔
      (run_batch_job env jid brief stored).1.status = JobStatus.done) ∧
    (∀ ke, (run_batch_job env jid brief stored).2.2 = some ke →
      (run_batch_job env jid brief stored).1.status = JobStatus.failed ∧
      (run_batch_job env jid brief stored).1.logs.getLast? =
        some (str "Job failed: " ++ ke.2)) ∧
    (∃ newLogs, (run_batch_job env jid brief stored).1.logs =
      (initialJob jid brief stored).logs ++ newLogs) ∧
    (∃ newRes, (run_batch_job env jid brief stored).1.results =
      (initialJob jid brief stored).results ++ newRes ∧
      (∀ e, env.batchPlan = Except.error e → newRes = []) ∧
      (∀ bp, env.batchPlan = Except.ok bp →
        newRes.length ≤ bp.items.length ∧
        ((run_batch_job env jid brief stored).2.2 = none →
          newRes.length = bp.items.length ∧
          (run_batch_job env jid brief stored).1.current =
            (initialJob jid brief stored).current + bp.items.length)) ∧
      (∀ kf ef, (run_batch_job env jid brief stored).2.2 =
          some (some kf, ef) →
        newRes.length = kf ∧
        (run_batch_job env jid brief stored).1.current =
          (initialJob jid brief stored).current + kf ∧
        (∀ bp, env.batchPlan = Except.ok bp → kf < bp.items.length))) := by
  rcases hbp : env.batchPlan with e | bp
  · have hout : run_batch_job env jid brief stored =
        ({ job_id := (initialJob jid brief stored).job_id,
           status := JobStatus.failed,
           total := brief.desired_count,
           current := (initialJob jid brief stored).current,
           logs := (initialJob jid brief stored).logs ++
             [str "Job failed: " ++ e],
           results := (initialJob jid brief stored).results,
           started_at := some env.nowStart,
           finished_at := some env.nowFinish }, [], some (none, e)) := by
      simp only [run_batch_job, hbp]
    refine ⟨Or.inr (by rw [hout]), by rw [hout], by rw [hout]; simp, ?_,
      ⟨[str "Job failed: " ++ e], by rw [hout]⟩,
      ⟨[], by rw [hout]; simp, fun e' _ => rfl,
        fun bp h => Except.noConfusion h, ?_⟩⟩
    · intro ke hke
      rw [hout] at hke
      have hke2 : (none, e) = ke := by injection hke
      refine ⟨by rw [hout], ?_⟩
      rw [hout, ← hke2]
      show ((initialJob jid brief stored).logs ++
        [str "Job failed: " ++ e]).getLast? = some (str "Job failed: " ++ e)
      exact List.getLast?_concat _
    · intro kf ef hf
      rw [hout] at hf
      injection hf with h2
      injection h2 with h3 h4
      exact Option.noConfusion h3
  · have G := runBatchLoop_general env bp.items 0
      { job_id := (initialJob jid brief stored).job_id,
        status := JobStatus.running,
        total := bp.items.length,
        current := (initialJob jid brief stored).current,
        logs := (initialJob jid brief stored).logs,
        results := (initialJob jid brief stored).results,
        started_at := some env.nowStart,
        finished_at := (initialJob jid brief stored).finished_at }
    rcases hrec : runBatchLoop env bp.items 0
        { job_id := (initialJob jid brief stored).job_id,
          status := JobStatus.running,
          total := bp.items.length,
          current := (initialJob jid brief stored).current,
          logs := (initialJob jid brief stored).logs,
          results := (initialJob jid brief stored).results,
          started_at := some env.nowStart,
          finished_at := (initialJob jid brief stored).finished_at }
      with ⟨jobF, pubs, exc⟩
    rw [hrec] at G
    obtain ⟨hid, hst, hto, hsa, hfa, ⟨newLogs, hlogs⟩,
      m, newRes, hm, hcur, hres, hlen, hexc, hkidx⟩ := G
    have hlogs2 : jobF.logs = (initialJob jid brief stored).logs ++ newLogs :=
      hlogs
    have hres2 : jobF.results =
        (initialJob jid brief stored).results ++ newRes := hres
    have hcur2 : jobF.current = (initialJob jid brief stored).current + m :=
      hcur
    rcases exc with _ | ⟨k, e⟩
    · have hout : run_batch_job env jid brief stored =
          ({ job_id := jobF.job_id, status := JobStatus.done,
             total := jobF.total, current := jobF.current,
             logs := jobF.logs, results := jobF.results,
             started_at := jobF.started_at,
             finished_at := some env.nowFinish }, pubs, none) := by
        simp only [run_batch_job, hbp]
        rw [hrec]
      refine ⟨Or.inl (by rw [hout]), by rw [hout], ?_,
        fun ke hke => absurd (hout ▸ hke) (by simp),
        ⟨newLogs, by rw [hout]; exact hlogs2⟩,
        ⟨newRes, by rw [hout]; exact hres2,
          fun e h => Except.noConfusion h, ?_, ?_⟩⟩
      · rw [hout]
        simp
      · intro bp' hbp'
        have hbp2 : bp.items = bp'.items := by
          injection hbp' with h3
          rw [h3]
        rw [← hbp2]
        have hm2 : m = bp.items.length := hexc rfl
        refine ⟨hlen ▸ hm, fun _ => ⟨hlen ▸ hm2, ?_⟩⟩
        rw [hout]
        show jobF.current = (initialJob jid brief stored).current +
          bp.items.length
        rw [hcur2, hm2]
      · intro kf ef hf
        rw [hout] at hf
        exact Option.noConfusion hf
    · have hout : run_batch_job env jid brief stored =
          ({ job_id := jobF.job_id, status := JobStatus.failed,
             total := jobF.total, current := jobF.current,
             logs := jobF.logs ++ [str "Job failed: " ++ e],
             results := jobF.results, started_at := jobF.started_at,
             finished_at := some env.nowFinish }, pubs,
           some (some k, e)) := by
        simp only [run_batch_job, hbp]
        rw [hrec]
      refine ⟨Or.inr (by rw [hout]), by rw [hout], ?_, ?_,
        ⟨newLogs ++ [str "Job failed: " ++ e], ?_⟩,
        ⟨newRes, by rw [hout]; exact hres2,
          fun e' h => Except.noConfusion h, ?_, ?_⟩⟩
      · rw [hout]
        simp
      · intro ke hke
        rw [hout] at hke
        have hke2 : (some k, e) = ke := by injection hke
        refine ⟨by rw [hout], ?_⟩
        rw [hout, ← hke2]
        show (jobF.logs ++ [str "Job failed: " ++ e]).getLast? =
          some (str "Job failed: " ++ e)
        exact List.getLast?_concat _
      · rw [hout]
        show jobF.logs ++ [str "Job failed: " ++ e] =
          (initialJob jid brief stored).logs ++
            (newLogs ++ [str "Job failed: " ++ e])
        rw [hlogs2, List.append_assoc]
      · intro bp' hbp'
        have hbp2 : bp.items = bp'.items := by
          injection hbp' with h3
          rw [h3]
        rw [← hbp2]
        refine ⟨hlen ▸ hm, fun h => ?_⟩
        rw [hout] at h
        exact absurd h (by simp)
      · intro kf ef hf
        rw [hout] at hf
        injection hf with h2
        injection h2 with h3 h4
        injection h3 with h5
        obtain ⟨hkm, hmlt⟩ := hkidx (k, e) rfl
        have hkm2 : k = m := by simpa using hkm
        refine ⟨?_, ?_, ?_⟩
        · rw [hlen]
          omega
        · rw [hout]
          show jobF.current = (initialJob jid brief stored).current + kf
          rw [hcur2]
          omega
        · intro bp' hbp'
          have hbp2 : bp.items = bp'.items := by
            injection hbp' with h7
            rw [h7]
          rw [← hbp2]
          omega

end AutoBlog
